import Mathlib

/-!
Shallow embedding of the CDD Assistant core (src/app.py) for claim checking.

Modelling conventions:
* Python numbers (scores, weights) are modelled as exact rationals `ℚ`;
  the float weight literals 0.40, 0.35, … are the exact decimals (Python's
  binary doubles differ by < 2⁻⁵⁰ and every concrete input used in a theorem
  below was checked by hand to evaluate identically under binary64).
* Python's built-in `round` is round-half-to-even (banker's rounding); it is
  embedded as `pythonRound` below.
* Python dicts of sub-factor scores are association lists with first-match
  lookup and a default, mirroring `dict.get(k, 0)`.
* Text is `List Char`; the specific regular expressions appearing in
  `_repair_and_parse` / `parse_report_json` are embedded as the equivalent
  string functions (each one is documented at its definition).
-/

/-- Python's `round` on an exact rational: round half to even.
    (`Rat.floor` is used rather than `⌊·⌋` so the definition evaluates by
    kernel reduction; `ratFloor_eq` below identifies the two.) -/
def pythonRound (q : ℚ) : ℤ :=
  let f := q.floor
  if q - f < 1/2 then f
  else if q - f > 1/2 then f + 1
  else if f % 2 = 0 then f else f + 1

/-- Python's `abs` on an exact rational, kernel-computable. -/
def pyAbs (q : ℚ) : ℚ := if q < 0 then -q else q

/-- `m.get(k, d)` on an association-list model of a Python dict. -/
def dictGet (m : List (String × ℚ)) (k : String) (d : ℚ) : ℚ :=
  match m.find? (fun p => p.1 == k) with
  | some p => p.2
  | none => d

/-- `CUSTOMER_SF_WEIGHTS` from src/app.py (insertion order preserved). -/
def CUSTOMER_SF_WEIGHTS : List (String × ℚ) :=
  [("sanctions_exposure", 0.30), ("pep_exposure", 0.25), ("adverse_media", 0.20),
   ("ownership_complexity", 0.15), ("identity_verification", 0.10)]

/-- `MATTER_SF_WEIGHTS` from src/app.py. -/
def MATTER_SF_WEIGHTS : List (String × ℚ) :=
  [("matter_type", 0.40), ("source_of_funds", 0.40), ("transaction_modifier", 0.20)]

/-- `calc_weighted_customer(sf)`: `round(sum(sf.get(k, 0) * w for k, w in CUSTOMER_SF_WEIGHTS.items()))`. -/
def calc_weighted_customer (sf : List (String × ℚ)) : ℤ :=
  pythonRound ((CUSTOMER_SF_WEIGHTS.map (fun kw => dictGet sf kw.1 0 * kw.2)).sum)

/-- `calc_weighted_matter(sf)`: `round(sum(sf.get(k, 0) * w for k, w in MATTER_SF_WEIGHTS.items()))`. -/
def calc_weighted_matter (sf : List (String × ℚ)) : ℤ :=
  pythonRound ((MATTER_SF_WEIGHTS.map (fun kw => dictGet sf kw.1 0 * kw.2)).sum)

/-- The `"customer_risk"` / `"matter_risk"` entries of the report's
    `components` dict: a dict that may carry a `"score"` and a
    `"sub_factors"` entry (absent keys modelled with `Option`). -/
structure Component where
  score : Option ℚ
  sub_factors : Option (List (String × ℚ))

/-- The report's `risk_scoring.components` dict: the four component entries,
    each possibly absent (`components.get(name, default)`). -/
structure Components where
  customer_risk : Option Component
  matter_risk : Option Component
  jurisdiction_risk : Option ℚ
  delivery_channel_risk : Option ℚ

/-- `calc_weighted_overall(components)` from src/app.py:
    `cr`/`mr` are the self-reported `"score"` fields (default 0),
    `jr`/`dr` the standalone numbers (default 0). -/
def calc_weighted_overall (components : Components) : ℤ :=
  let cr := ((components.customer_risk.getD ⟨none, none⟩).score).getD 0
  let mr := ((components.matter_risk.getD ⟨none, none⟩).score).getD 0
  let jr := components.jurisdiction_risk.getD 0
  let dr := components.delivery_channel_risk.getD 0
  pythonRound (cr * 0.40 + mr * 0.35 + jr * 0.20 + dr * 0.05)

/-- `score_level(s)` from src/app.py. -/
def score_level (s : ℤ) : String :=
  if s ≤ 25 then "Low"
  else if s ≤ 50 then "Medium"
  else if s ≤ 75 then "High"
  else "Critical"

/-- Spec-side formula for the recomputed customer composite
    (written from the spec text, to compare with `calc_weighted_customer`):
    0.30·sanctions + 0.25·pep + 0.20·adverseMedia + 0.15·ownershipComplexity
    + 0.10·identityVerification. -/
def customerFormula (sf : List (String × ℚ)) : ℚ :=
  0.30 * dictGet sf "sanctions_exposure" 0 + 0.25 * dictGet sf "pep_exposure" 0 +
  0.20 * dictGet sf "adverse_media" 0 + 0.15 * dictGet sf "ownership_complexity" 0 +
  0.10 * dictGet sf "identity_verification" 0

/-- Spec-side formula for the recomputed matter composite:
    0.40·matterType + 0.40·sourceOfFunds + 0.20·transactionModifier. -/
def matterFormula (sf : List (String × ℚ)) : ℚ :=
  0.40 * dictGet sf "matter_type" 0 + 0.40 * dictGet sf "source_of_funds" 0 +
  0.20 * dictGet sf "transaction_modifier" 0

/-- Spec-side formula for the overall composite over the SELF-REPORTED
    component scores: 0.40·CustomerRisk + 0.35·MatterRisk + 0.20·jurisdiction
    + 0.05·deliveryChannel. -/
def overallSelfFormula (c : Components) : ℚ :=
  0.40 * ((c.customer_risk.getD ⟨none, none⟩).score).getD 0 +
  0.35 * ((c.matter_risk.getD ⟨none, none⟩).score).getD 0 +
  0.20 * c.jurisdiction_risk.getD 0 + 0.05 * c.delivery_channel_risk.getD 0

/-- The alternative overall composite that would instead re-derive the
    customer/matter scores from their declared sub-factors (what C2 says the
    code does NOT do). -/
def overallRecomputed (c : Components) : ℤ :=
  let crsf := ((c.customer_risk.getD ⟨none, none⟩).sub_factors).getD []
  let mrsf := ((c.matter_risk.getD ⟨none, none⟩).sub_factors).getD []
  pythonRound (((calc_weighted_customer crsf : ℚ)) * 0.40 +
    ((calc_weighted_matter mrsf : ℚ)) * 0.35 +
    c.jurisdiction_risk.getD 0 * 0.20 + c.delivery_channel_risk.getD 0 * 0.05)

/-- The `risk_scoring` block of a report, restricted to the fields the
    Reconciler reads (`rs.get("overall_risk_score", 0)`,
    `rs.get("components", {})`). -/
structure RiskScoring where
  overall_risk_score : Option ℚ
  components : Option Components

/-- The reconciliation outcome of `render_risk_scoring`'s pure core
    (src/app.py lines 858-869, 920): the recomputed composites, the
    self-reported overall score, and the discrepancy indicator
    `abs(overall_calc - overall_ai) > 5`. -/
structure ReconcileOut where
  cr_calc : ℤ
  mr_calc : ℤ
  overall_calc : ℤ
  overall_ai : ℚ
  discrepancy : Bool

/-- Pure core of `render_risk_scoring` (src/app.py): recompute the three
    composites, keep the self-reported overall score alongside, and set the
    discrepancy indicator iff `abs(overall_calc - overall_ai) > 5`. -/
def reconcile (rs : RiskScoring) : ReconcileOut :=
  let comps := rs.components.getD ⟨none, none, none, none⟩
  let cr := comps.customer_risk.getD ⟨none, none⟩
  let mr := comps.matter_risk.getD ⟨none, none⟩
  let cr_sf := cr.sub_factors.getD []
  let mr_sf := mr.sub_factors.getD []
  let cr_calc := calc_weighted_customer cr_sf
  let mr_calc := calc_weighted_matter mr_sf
  let overall_calc := calc_weighted_overall comps
  let overall_ai := rs.overall_risk_score.getD 0
  ⟨cr_calc, mr_calc, overall_calc, overall_ai,
   decide (pyAbs ((overall_calc : ℚ) - overall_ai) > 5)⟩

/-! ### Text utilities for `_repair_and_parse` / `parse_report_json`

Python text is modelled as `List Char`.  The whitespace class is the ASCII
part of Python's `\s` / `str.strip()` class (all inputs of interest are
ASCII). -/

/-- ASCII whitespace, as recognised by Python's `\s` and `str.strip()`. -/
def isPySpace (c : Char) : Bool :=
  c = ' ' || c = '\t' || c = '\n' || c = '\r' || c = '\x0b' || c = '\x0c'

/-- A closing brace or bracket, the `[}\]]` class of the repair regex. -/
def isCloseBracket (c : Char) : Bool := c = '\x7d' || c = ']'

/-- Scanner for `re.sub(r",\s*([}\]])", r"\1", blob)`.
    State: `none` = ordinary scanning; `some ws` = a `,` was read, followed
    so far by the whitespace run `ws` (kept in reverse).  On a closing
    brace/bracket the pending comma and whitespace are dropped (the
    replacement `\1`); on any other terminator the pending text is flushed
    verbatim and scanning resumes, exactly as `re.sub` resumes after a
    failed match at the comma. -/
def stcGo : Option (List Char) → List Char → List Char
  | none, [] => []
  | none, c :: rest =>
    if c = ',' then stcGo (some []) rest
    else c :: stcGo none rest
  | some ws, [] => ',' :: ws.reverse
  | some ws, c :: rest =>
    if isCloseBracket c then c :: stcGo none rest
    else if isPySpace c then stcGo (some (c :: ws)) rest
    else if c = ',' then (',' :: ws.reverse) ++ stcGo (some []) rest
    else (',' :: ws.reverse) ++ (c :: stcGo none rest)

/-- The trailing-separator repair pass of `_repair_and_parse` (src/app.py
    line 542): `re.sub(r",\s*([}\]])", r"\1", blob)`. -/
def stripTrailingCommas (s : List Char) : List Char := stcGo none s

/-- `True` iff the text contains two commas separated only by whitespace
    (`,\s*,`) — the pattern that makes the repair pass non-idempotent. -/
def hscGo : Bool → List Char → Bool
  | _, [] => false
  | false, c :: rest => if c = ',' then hscGo true rest else hscGo false rest
  | true, c :: rest =>
    if c = ',' then true
    else if isPySpace c then hscGo true rest
    else hscGo false rest

/-- `s` contains a `,\s*,` pattern (a "stacked comma"). -/
def hasStackedComma (s : List Char) : Bool := hscGo false s

/-- `str.strip()` of trailing whitespace. -/
def dropTrailingWs (s : List Char) : List Char :=
  (s.reverse.dropWhile isPySpace).reverse

/-- Python `str.strip()` (ASCII model). -/
def pyStrip (s : List Char) : List Char := dropTrailingWs (s.dropWhile isPySpace)

/-- The backtick character (written via its code point). -/
def backtick : Char := Char.ofNat 96

/-- Three backticks, a markdown code fence. -/
def fenceChars : List Char := [backtick, backtick, backtick]

/-- `re.sub(r"^```(?:json)?\s*", "", blob)`: strip one leading code fence,
    an optional `json` tag, and following whitespace. -/
def stripFenceStart (s : List Char) : List Char :=
  if s.take 3 = fenceChars then
    let r := s.drop 3
    let r := if r.take 4 = ['j', 's', 'o', 'n'] then r.drop 4 else r
    r.dropWhile isPySpace
  else s

/-- `re.sub(r"\s*```$", "", blob)`: strip one trailing code fence and the
    whitespace preceding it. -/
def stripFenceEnd (s : List Char) : List Char :=
  if s.reverse.take 3 = fenceChars then dropTrailingWs (s.reverse.drop 3).reverse
  else s

/-- Scanner for `re.sub(r"(?<!\\)\n", " ", blob2)`: replace each newline not
    immediately preceded by a backslash with a space; `prev` is the previous
    character of the original text (the lookbehind inspects the original). -/
def collapseNLGo : Option Char → List Char → List Char
  | _, [] => []
  | prev, c :: rest =>
    if c = '\n' ∧ prev ≠ some '\\' then ' ' :: collapseNLGo (some c) rest
    else c :: collapseNLGo (some c) rest

/-- Pass 3 of `_repair_and_parse`: collapse unescaped newlines to spaces. -/
def collapseNewlines (s : List Char) : List Char := collapseNLGo none s

example : stripTrailingCommas ",,\x7d".toList = ",\x7d".toList := by decide
example : stripTrailingCommas ",\x7d".toList = "\x7d".toList := by decide
example : stripTrailingCommas ", ]".toList = "]".toList := by decide
example : hasStackedComma ", ,\x7d".toList = true := by decide
example : hasStackedComma "a, b\x7d".toList = false := by decide
example : pyStrip "  ab c  ".toList = "ab c".toList := by decide
example : collapseNewlines "a\nb\\\nc".toList = "a b\\\nc".toList := by decide

/-! ### JSON values, serialization (`json.dumps`) and parsing (`json.loads`)

JSON documents are modelled by `J`.  Numbers are modelled as integers (the
report schema's scores are integral; float literals are outside the model
and the parser rejects them).  `dumpsL` mirrors `json.dumps` with the
default separators `", "` / `": "` and minimal string escaping
(`ensure_ascii` disabled: non-ASCII characters are emitted literally, which
`json.loads` accepts equally).  `loadsL` mirrors `json.loads`: strict JSON
with the four JSON whitespace characters, exact `true/false/null` literals,
the no-leading-zero integer rule, rejection of raw control characters
inside strings, and the standard escape sequences including `\uXXXX`. -/

inductive J where
  | null
  | bool (b : Bool)
  | num (n : ℤ)
  | str (s : List Char)
  | arr (elems : List J)
  | obj (fields : List (List Char × J))

/-- The decimal digit character for `d` (0–9; other inputs give `'0'`). -/
def digitChar (d : ℕ) : Char :=
  match d with
  | 0 => '0' | 1 => '1' | 2 => '2' | 3 => '3' | 4 => '4'
  | 5 => '5' | 6 => '6' | 7 => '7' | 8 => '8' | 9 => '9'
  | _ => '0'

/-- Digit extraction, most significant first; `fuel ≥ n` suffices. -/
def natToCharsAux : ℕ → ℕ → List Char → List Char
  | 0, _, acc => acc
  | fuel + 1, n, acc =>
    if n = 0 then acc
    else natToCharsAux fuel (n / 10) (digitChar (n % 10) :: acc)

/-- Decimal rendering of a natural number. -/
def natToChars (n : ℕ) : List Char :=
  if n = 0 then ['0'] else natToCharsAux (n + 1) n []

/-- Decimal rendering of an integer (Python `repr` of an `int`). -/
def intToChars : ℤ → List Char
  | .ofNat n => natToChars n
  | .negSucc m => '-' :: natToChars (m + 1)

/-- The lowercase hex digit character for `d` (0–15). -/
def hexDigitChar (d : ℕ) : Char :=
  match d with
  | 0 => '0' | 1 => '1' | 2 => '2' | 3 => '3' | 4 => '4'
  | 5 => '5' | 6 => '6' | 7 => '7' | 8 => '8' | 9 => '9'
  | 10 => 'a' | 11 => 'b' | 12 => 'c' | 13 => 'd' | 14 => 'e' | 15 => 'f'
  | _ => '0'

/-- `json.dumps` escaping of one character inside a string literal:
    quote and backslash are escaped, the named control escapes are used for
    \b \t \n \f \r, remaining control characters become `\u00XX`, everything
    else is emitted literally. -/
def escChar (c : Char) : List Char :=
  if c = '"' then ['\\', '"']
  else if c = '\\' then ['\\', '\\']
  else if c = '\n' then ['\\', 'n']
  else if c = '\t' then ['\\', 't']
  else if c = '\r' then ['\\', 'r']
  else if c = '\x08' then ['\\', 'b']
  else if c = '\x0c' then ['\\', 'f']
  else if c.toNat < 0x20 then
    ['\\', 'u', '0', '0', hexDigitChar (c.toNat / 16), hexDigitChar (c.toNat % 16)]
  else [c]

/-- `json.dumps` of a string value. -/
def dumpsStr (s : List Char) : List Char :=
  '"' :: ((s.map escChar).flatten ++ ['"'])

mutual
/-- `json.dumps(value)` with the default separators `", "` and `": "`. -/
def dumpsL : J → List Char
  | .null => "null".toList
  | .bool true => "true".toList
  | .bool false => "false".toList
  | .num n => intToChars n
  | .str s => dumpsStr s
  | .arr es => '[' :: (dumpsArr es ++ [']'])
  | .obj fs => '\x7b' :: (dumpsObj fs ++ ['\x7d'])
/-- Comma-separated rendering of array elements. -/
def dumpsArr : List J → List Char
  | [] => []
  | [x] => dumpsL x
  | x :: xs => dumpsL x ++ ',' :: ' ' :: dumpsArr xs
/-- Comma-separated rendering of object members (`"key": value`). -/
def dumpsObj : List (List Char × J) → List Char
  | [] => []
  | [(k, v)] => dumpsStr k ++ ':' :: ' ' :: dumpsL v
  | (k, v) :: xs => dumpsStr k ++ ':' :: ' ' :: dumpsL v ++ ',' :: ' ' :: dumpsObj xs
end

/-- The four JSON whitespace characters skipped by `json.loads`. -/
def isJsonWs (c : Char) : Bool := c = ' ' || c = '\t' || c = '\n' || c = '\r'

/-- Skip JSON whitespace. -/
def skipWs (s : List Char) : List Char := s.dropWhile isJsonWs

/-- Value of a hex digit character, accepting both cases. -/
def hexValC (c : Char) : Option ℕ :=
  if '0' ≤ c ∧ c ≤ '9' then some (c.toNat - 48)
  else if 'a' ≤ c ∧ c ≤ 'f' then some (c.toNat - 87)
  else if 'A' ≤ c ∧ c ≤ 'F' then some (c.toNat - 55)
  else none

/-- The single-character JSON escapes. -/
def escDecode (e : Char) : Option Char :=
  if e = '"' then some '"'
  else if e = '\\' then some '\\'
  else if e = '/' then some '/'
  else if e = 'b' then some '\x08'
  else if e = 'f' then some '\x0c'
  else if e = 'n' then some '\n'
  else if e = 'r' then some '\r'
  else if e = 't' then some '\t'
  else none

/-- Parse the body of a JSON string literal (after the opening quote):
    returns the decoded characters and the text after the closing quote.
    Raw control characters are rejected (`json.loads` strict mode). -/
def parseStrL : List Char → Option (List Char × List Char)
  | [] => none
  | c :: rest =>
    if c = '"' then some ([], rest)
    else if c = '\\' then
      match rest with
      | [] => none
      | e :: rest2 =>
        if e = 'u' then
          match rest2 with
          | h1 :: h2 :: h3 :: h4 :: rest3 =>
            (match hexValC h1, hexValC h2, hexValC h3, hexValC h4 with
             | some a, some b, some c', some d =>
               (parseStrL rest3).map
                 (fun p => (Char.ofNat (((a * 16 + b) * 16 + c') * 16 + d) :: p.1, p.2))
             | _, _, _, _ => none)
          | _ => none
        else
          match escDecode e with
          | some c' => (parseStrL rest2).map (fun p => (c' :: p.1, p.2))
          | none => none
    else if c.toNat < 0x20 then none
    else (parseStrL rest).map (fun p => (c :: p.1, p.2))

/-- A decimal digit character. -/
def isDigitC (c : Char) : Bool := '0' ≤ c ∧ c ≤ '9'

/-- Value of a run of decimal digit characters. -/
def digitsVal (ds : List Char) : ℕ :=
  ds.foldl (fun a c => 10 * a + (c.toNat - 48)) 0

/-- Parse the integer part of a JSON number: `0` or a nonzero digit followed
    by a maximal digit run (JSON forbids leading zeros, so after `0` the
    scan stops). -/
def parseIntPart : List Char → Option (ℕ × List Char)
  | [] => none
  | c :: rest =>
    if c = '0' then some (0, rest)
    else if isDigitC c then
      some (digitsVal (c :: rest.takeWhile isDigitC), rest.dropWhile isDigitC)
    else none

/-- Reject a following fraction/exponent marker: float literals are outside
    this integer-valued model of the report's JSON documents. -/
def guardNoFloatTail : List Char → Option (List Char)
  | [] => some []
  | c :: rest =>
    if c = '.' || c = 'e' || c = 'E' then none else some (c :: rest)

/-- Parse a JSON integer (optional minus sign, no leading zeros). -/
def parseNumL : List Char → Option (ℤ × List Char)
  | [] => none
  | c :: rest =>
    if c = '-' then
      (parseIntPart rest).bind fun p =>
        (guardNoFloatTail p.2).map fun r => (-(p.1 : ℤ), r)
    else
      (parseIntPart (c :: rest)).bind fun p =>
        (guardNoFloatTail p.2).map fun r => ((p.1 : ℤ), r)

mutual
/-- Fuel-bounded model of `json.loads`'s value scanner: skip whitespace,
    dispatch on the first character, return the value and the unconsumed
    rest.  `fuel > length of the input` always suffices. -/
def parseVal : ℕ → List Char → Option (J × List Char)
  | 0, _ => none
  | fuel + 1, s =>
    match skipWs s with
    | [] => none
    | '\x7b' :: rest =>
      (match skipWs rest with
       | '\x7d' :: r => some (J.obj [], r)
       | s2 => (parseMembers fuel s2).map (fun p => (J.obj p.1, p.2)))
    | '[' :: rest =>
      (match skipWs rest with
       | ']' :: r => some (J.arr [], r)
       | s2 => (parseElems fuel s2).map (fun p => (J.arr p.1, p.2)))
    | '"' :: rest => (parseStrL rest).map (fun p => (J.str p.1, p.2))
    | 't' :: rest =>
      if rest.take 3 = ['r', 'u', 'e'] then some (J.bool true, rest.drop 3) else none
    | 'f' :: rest =>
      if rest.take 4 = ['a', 'l', 's', 'e'] then some (J.bool false, rest.drop 4) else none
    | 'n' :: rest =>
      if rest.take 3 = ['u', 'l', 'l'] then some (J.null, rest.drop 3) else none
    | s1 => (parseNumL s1).map (fun p => (J.num p.1, p.2))
/-- Members of a JSON object after a first non-`}` character was seen:
    `"key" : value`, then `,` (more members) or `}` (done). -/
def parseMembers : ℕ → List Char → Option (List (List Char × J) × List Char)
  | 0, _ => none
  | fuel + 1, s =>
    match s with
    | '"' :: rest =>
      (parseStrL rest).bind fun pk =>
        match skipWs pk.2 with
        | ':' :: r2 =>
          (parseVal fuel (skipWs r2)).bind fun pv =>
            (match skipWs pv.2 with
             | ',' :: r4 =>
               (parseMembers fuel (skipWs r4)).map fun pf =>
                 ((pk.1, pv.1) :: pf.1, pf.2)
             | '\x7d' :: r4 => some ([(pk.1, pv.1)], r4)
             | _ => none)
        | _ => none
    | _ => none
/-- Elements of a JSON array after a first non-`]` character was seen. -/
def parseElems : ℕ → List Char → Option (List J × List Char)
  | 0, _ => none
  | fuel + 1, s =>
    (parseVal fuel s).bind fun pv =>
      match skipWs pv.2 with
      | ',' :: r2 => (parseElems fuel (skipWs r2)).map fun pe => (pv.1 :: pe.1, pe.2)
      | ']' :: r2 => some ([pv.1], r2)
      | _ => none
end

/-- `json.loads(s)`: parse one JSON document, allowing only whitespace
    around it. -/
def loadsL (s : List Char) : Option J :=
  match parseVal (2 * s.length + 1) s with
  | some (v, rest) => if skipWs rest = [] then some v else none
  | none => none

example : loadsL "null".toList = some J.null := rfl
example : loadsL " \x7b \x7d ".toList = some (J.obj []) := rfl
example :
    loadsL "\x7b\"a\": [1, -20, \"x\\n\"]\x7d".toList =
      some (J.obj [(['a'], J.arr [J.num 1, J.num (-20), J.str ['x', '\n']])]) := rfl
example : loadsL "\x7b\"a\": 1,\x7d".toList = none := rfl
example : loadsL "01".toList = none := rfl
example : loadsL "\x7b\"a\": \"b".toList = none := rfl
example : loadsL (dumpsL (J.obj [(['a'], J.arr [J.num 12, J.null])])) =
    some (J.obj [(['a'], J.arr [J.num 12, J.null])]) := rfl

/-! ### `_repair_and_parse` and `parse_report_json` (src/app.py 527-574) -/

/-- `_repair_and_parse(blob)`: strip whitespace and markdown fences, then
    try `json.loads` raw (pass 1), after removing trailing commas before a
    closing brace/bracket (pass 2), and after collapsing unescaped newlines
    (pass 3); `None` if all passes fail. -/
def _repair_and_parse (blob : List Char) : Option J :=
  let b0 := pyStrip blob
  let b1 := stripFenceStart b0
  let b2 := stripFenceEnd b1
  let b := pyStrip b2
  match loadsL b with
  | some j => some j
  | none =>
    let blob2 := stripTrailingCommas b
    match loadsL blob2 with
    | some j => some j
    | none => loadsL (collapseNewlines blob2)

/-- `pat` occurs as a contiguous substring (Python `pat in s`). -/
def hasSubstrB (pat : List Char) : List Char → Bool
  | [] => pat.isPrefixOf []
  | s@(_ :: rest) => pat.isPrefixOf s || hasSubstrB pat rest

/-- Index of the first occurrence of `pat` (the position `re.search` of a
    literal pattern reports). -/
def firstIdxOf (pat : List Char) : List Char → Option ℕ
  | [] => if pat.isPrefixOf ([] : List Char) then some 0 else none
  | s@(_ :: rest) =>
    if pat.isPrefixOf s then some 0
    else (firstIdxOf pat rest).map (· + 1)

/-- The opening delimiter `<CDD_REPORT_JSON>`. -/
def openTag : List Char := "<CDD_REPORT_JSON>".toList

/-- The closing delimiter `</CDD_REPORT_JSON>`. -/
def closeTag : List Char := "</CDD_REPORT_JSON>".toList

/-- `re.search(r"<CDD_REPORT_JSON>(.*?)</CDD_REPORT_JSON>", raw, re.DOTALL)`:
    the text between the first opening delimiter and the first closing
    delimiter after it (the lazy `.*?`), if both exist. -/
def findTagInner (raw : List Char) : Option (List Char) :=
  match firstIdxOf openTag raw with
  | none => none
  | some i =>
    let after := raw.drop (i + openTag.length)
    match firstIdxOf closeTag after with
    | none => none
    | some j => some (after.take j)

/-- The anchor literal `"subject_name"` (with its quotes) of strategy 2. -/
def subjectKey : List Char := '"' :: ("subject_name".toList ++ ['"'])

/-- An opening or closing brace, the `[^{}]` complement class. -/
def isBraceChar (c : Char) : Bool := c = '\x7b' || c = '\x7d'

/-- Search for `re.search(r'\{[^{}]*"subject_name".*\}', raw, re.DOTALL)`:
    the first `{` whose following brace-free run contains the anchor
    literal; returns that position and the anchor's position. -/
def findSubjectStart : ℕ → List Char → Option (ℕ × ℕ)
  | _, [] => none
  | i, c :: rest =>
    if c = '\x7b' then
      match firstIdxOf subjectKey (rest.takeWhile (fun d => !isBraceChar d)) with
      | some off => some (i, i + 1 + off)
      | none => findSubjectStart (i + 1) rest
    else findSubjectStart (i + 1) rest

/-- Index of the last occurrence of character `c`. -/
def lastIdxOf (c : Char) (s : List Char) : Option ℕ :=
  match firstIdxOf [c] s.reverse with
  | some k => some (s.length - 1 - k)
  | none => none

/-- The span matched by strategy 2 of `parse_report_json`: from the first
    `{` whose brace-free run contains `"subject_name"`, to the last `}` of
    the text (the greedy `.*\}`), provided that `}` lies after the anchor. -/
def findSubjectSpan (raw : List Char) : Option (List Char) :=
  match findSubjectStart 0 raw with
  | none => none
  | some pq =>
    match lastIdxOf '\x7d' raw with
    | none => none
    | some R =>
      if pq.2 + subjectKey.length ≤ R then some ((raw.drop pq.1).take (R + 1 - pq.1))
      else none

/-- `parse_report_json(raw)` (src/app.py 558-574): strategy 1 extracts the
    delimited payload and repairs it; on failure strategy 2 repairs the
    outermost brace span anchored at `"subject_name"`. -/
def parse_report_json (raw : List Char) : Option J :=
  match findTagInner raw with
  | some inner =>
    match _repair_and_parse inner with
    | some r => some r
    | none =>
      match findSubjectSpan raw with
      | some span => _repair_and_parse span
      | none => none
  | none =>
    match findSubjectSpan raw with
    | some span => _repair_and_parse span
    | none => none

/-- Serialize a report body inside the designated delimiter pair (the
    round-trip construction of §8 of the spec). -/
def wrapReport (body : List Char) : List Char := openTag ++ body ++ closeTag

example :
    parse_report_json (wrapReport (dumpsL (J.obj [("subject_name".toList, J.str "Acme".toList)]))) =
      some (J.obj [("subject_name".toList, J.str "Acme".toList)]) := rfl
example : parse_report_json "hello".toList = none := rfl
example :
    parse_report_json "<CDD_REPORT_JSON>\x7b\"subject_name\": \"A\",\x7d</CDD_REPORT_JSON>".toList =
      some (J.obj [("subject_name".toList, J.str ['A'])]) := rfl
example :
    parse_report_json "noise \x7b\"subject_name\": \"A\"\x7d tail".toList =
      some (J.obj [("subject_name".toList, J.str ['A'])]) := rfl

/-! ### The Conversation Driver (`run_cdd_research`, src/app.py 390-522)

The reasoning service is abstracted as a function from the call index to a
response (stop signal, optional first text block, tool-use blocks); the
three tool handlers do network I/O and are abstracted as an environment of
functions from the relevant input field to the result text.  Wall-clock
data (timestamps, durations) is not modelled.  `MAX_TOOL_CALLS = 25` and
the loop condition `len(audit_log) <= MAX_TOOL_CALLS` are as in the code;
a fuel argument bounds the recursion (fuel exhaustion returns an
all-empty result, which no theorem below depends on). -/

/-- `MAX_TOOL_CALLS` from src/app.py. -/
def MAX_TOOL_CALLS : ℕ := 25

/-- The `stop_reason` of a reasoning-service response: `end_turn`
    (final answer), `tool_use`, or anything else. -/
inductive StopReason where
  | end_turn
  | tool_use
  | other

/-- One `tool_use` block: the requested tool's name and the value of its
    single required input field. -/
structure ToolCall where
  name : String
  input : String

/-- One reasoning-service response: stop signal, first text block (if any),
    and the tool-use blocks in emission order. -/
structure AResponse where
  stop : StopReason
  text : Option (List Char)
  toolCalls : List ToolCall

/-- One Audit Log row (the wall-clock fields are not modelled):
    tool name, input, and `result[:200].replace("\n", " ")`. -/
structure AuditEntry where
  tool : String
  input : String
  result_preview : String

/-- The tool handlers behind the Registry, abstracted over their I/O. -/
structure ToolEnv where
  sanctions : String → String
  webSearch : String → String
  fetchPage : String → String

/-- The Driver's per-block dispatch (the `if block.name == …` chain of
    src/app.py 457-476): an unregistered name yields the fixed string
    `"Unknown tool."`. -/
def dispatchTool (env : ToolEnv) (name input : String) : String :=
  if name = "sanctions_screen" then env.sanctions input
  else if name = "web_search" then env.webSearch input
  else if name = "fetch_webpage" then env.fetchPage input
  else "Unknown tool."

/-- `result[:200].replace("\n", " ")` (src/app.py 483). -/
def resultPreview (r : String) : String :=
  ((r.toList.take 200).map (fun c => if c = '\n' then ' ' else c)).asString

/-- The Driver's result: the parsed report (if any), the raw final text,
    the Audit Log, plus two observables used by the claims — the number of
    extra ("corrective") reasoning-service requests made after the loop,
    and whether the loop ended via the final-answer (`end_turn`) signal. -/
structure DriverOut where
  parsed : Option J
  raw : List Char
  audit : List AuditEntry
  correctiveCalls : ℕ
  endedByFinalAnswer : Bool

/-- The loop-exit path of src/app.py 501-522 (reached on budget exhaustion
    or an unrecognised stop signal): extract from the last response's text;
    if that fails, issue one extra reasoning-service request and re-run the
    extractor once on its response. -/
def driverExit (service : ℕ → AResponse) (k : ℕ) (audit : List AuditEntry)
    (resp : AResponse) : DriverOut :=
  let raw := resp.text.getD []
  match parse_report_json raw with
  | some p => ⟨some p, raw, audit, 0, false⟩
  | none =>
    let raw2 := (service k).text.getD raw
    ⟨parse_report_json raw2, raw2, audit, 1, false⟩

/-- The agentic loop of `run_cdd_research` (src/app.py 407-522).
    `k` is the index of the next reasoning-service call, `audit` the Audit
    Log so far, `prev` the previous response (what the post-loop code reads
    when the `while` condition fails; the first iteration always runs since
    the log starts empty). -/
def driverLoop (service : ℕ → AResponse) (env : ToolEnv) :
    ℕ → ℕ → List AuditEntry → AResponse → DriverOut
  | 0, _, audit, _ => ⟨none, [], audit, 0, false⟩
  | fuel + 1, k, audit, prev =>
    if audit.length ≤ MAX_TOOL_CALLS then
      let resp := service k
      match resp.stop with
      | .end_turn =>
        let raw := resp.text.getD []
        (match parse_report_json raw with
         | some p => ⟨some p, raw, audit, 0, true⟩
         | none =>
           let raw2 := (service (k + 1)).text.getD raw
           ⟨parse_report_json raw2, raw2, audit, 1, true⟩)
      | .tool_use =>
        let newEntries := resp.toolCalls.map (fun tc =>
          ⟨tc.name, tc.input, resultPreview (dispatchTool env tc.name tc.input)⟩)
        driverLoop service env fuel (k + 1) (audit ++ newEntries) resp
      | .other => driverExit service (k + 1) audit resp
    else driverExit service k audit prev

/-- `run_cdd_research`: seed the session and run the loop. -/
def run_cdd_research (service : ℕ → AResponse) (env : ToolEnv) (fuel : ℕ) : DriverOut :=
  driverLoop service env fuel 0 [] ⟨.other, none, []⟩

/-- Rounding to nearest with ties rounded UP (the spec's wording for
    composite rounding, written from the spec to compare with the code's
    `pythonRound`). -/
def specRoundHalfUp (q : ℚ) : ℤ := ⌊q + 1/2⌋

/-- A reasoning service that always answers with an unrecognised stop
    signal and a non-extractable text (used to exhibit the corrective
    round-trip on a non-final-answer exit). -/
def otherStopService : ℕ → AResponse := fun _ => ⟨.other, some "hello".toList, []⟩

/-- Tool handlers that return empty text (their content is irrelevant to
    the driver-level claims). -/
def nullEnv : ToolEnv := ⟨fun _ => "", fun _ => "", fun _ => ""⟩

/-- A minimal well-formed report object. -/
def goodReport : J := J.obj [("subject_name".toList, J.str "Acme".toList)]

/-- `goodReport` serialized inside the delimiters. -/
def goodText : List Char := wrapReport (dumpsL goodReport)

/-- A session in which the first response requests one tool call and the
    second response is a final answer carrying a well-formed report. -/
def oneToolService (name input : String) : ℕ → AResponse := fun k =>
  if k = 0 then ⟨.tool_use, none, [⟨name, input⟩]⟩ else ⟨.end_turn, some goodText, []⟩

/-- A report object whose `subject_name` string contains the closing
    delimiter, and which has a nested object before the `subject_name`
    key (C5's counterexample object). -/
def delimiterReport : J :=
  J.obj [("risk_scoring".toList, J.obj [("overall_risk_score".toList, J.num 40)]),
         ("subject_name".toList, J.str closeTag)]

/-- `noTrailGo false s = true` iff `s` contains no `,\s*[}\]]` occurrence
    (no match for the trailing-comma repair pattern); the `Bool` state
    records whether the scan is inside a comma-plus-whitespace run. -/
def noTrailGo : Bool → List Char → Bool
  | _, [] => true
  | false, c :: rest => if c = ',' then noTrailGo true rest else noTrailGo false rest
  | true, c :: rest =>
    if isCloseBracket c then false
    else if isPySpace c then noTrailGo true rest
    else if c = ',' then noTrailGo true rest
    else noTrailGo false rest

/-- The text following a serialized number must not continue it: its first
    character is no digit and no fraction/exponent marker (all positions at
    which a serialized value ends in a JSON document satisfy this). -/
def numSafe : List Char → Prop
  | [] => True
  | c :: _ => isDigitC c = false ∧ c ≠ '.' ∧ c ≠ 'e' ∧ c ≠ 'E'

/-- The first character of `s` (if any) fails `p`. -/
def headSafe (p : Char → Bool) : List Char → Prop
  | [] => True
  | c :: _ => p c = false

example : calc_weighted_customer [("sanctions_exposure", 100)] = 30 := by
  with_unfolding_all decide
example : calc_weighted_overall ⟨none, none, none, some 10⟩ = 0 := by
  with_unfolding_all decide
example : calc_weighted_overall ⟨none, none, none, some 30⟩ = 2 := by
  with_unfolding_all decide
example : score_level 25 = "Low" := by decide

/-! ### Helper lemmas for the scoring layer -/

theorem ratFloor_eq (q : ℚ) : q.floor = ⌊q⌋ := by
  rw [Rat.floor_def', ← Rat.floor_def]

theorem pythonRound_eq (q : ℚ) :
    pythonRound q =
      if q - ⌊q⌋ < 1/2 then ⌊q⌋
      else if q - ⌊q⌋ > 1/2 then ⌊q⌋ + 1
      else if ⌊q⌋ % 2 = 0 then ⌊q⌋ else ⌊q⌋ + 1 := by
  unfold pythonRound
  rw [ratFloor_eq]

theorem pyAbs_eq (q : ℚ) : pyAbs q = |q| := by
  unfold pyAbs
  split_ifs with h
  · rw [abs_of_neg h]
  · rw [abs_of_nonneg (le_of_not_lt h)]

theorem calc_customer_eq_formula (sf : List (String × ℚ)) :
    calc_weighted_customer sf = pythonRound (customerFormula sf) := by
  unfold calc_weighted_customer customerFormula CUSTOMER_SF_WEIGHTS
  congr 1
  simp only [List.map_cons, List.map_nil, List.sum_cons, List.sum_nil]
  ring

theorem calc_matter_eq_formula (sf : List (String × ℚ)) :
    calc_weighted_matter sf = pythonRound (matterFormula sf) := by
  unfold calc_weighted_matter matterFormula MATTER_SF_WEIGHTS
  congr 1
  simp only [List.map_cons, List.map_nil, List.sum_cons, List.sum_nil]
  ring

theorem calc_overall_eq_formula (c : Components) :
    calc_weighted_overall c = pythonRound (overallSelfFormula c) := by
  unfold calc_weighted_overall overallSelfFormula
  dsimp only
  congr 1
  ring

theorem pythonRound_nearest (q : ℚ) : |((pythonRound q : ℤ) : ℚ) - q| ≤ 1/2 := by
  have h0 : ((⌊q⌋ : ℤ) : ℚ) ≤ q := Int.floor_le q
  have h1 : q < ((⌊q⌋ : ℤ) : ℚ) + 1 := Int.lt_floor_add_one q
  rw [pythonRound_eq]
  split_ifs with ha hb hc
  · rw [abs_of_nonpos (by linarith)]; linarith
  · rw [abs_of_nonneg (by push_cast; linarith)]; push_cast; linarith
  · rw [abs_of_nonpos (by linarith)]; linarith
  · rw [abs_of_nonneg (by push_cast; linarith)]; push_cast; linarith

theorem pythonRound_tie_even (q : ℚ) (h : q - ⌊q⌋ = 1/2) : pythonRound q % 2 = 0 := by
  rw [pythonRound_eq]
  split_ifs with ha hb hc
  · linarith
  · linarith
  · exact hc
  · omega

/-! ### Claim theorems for the Reconciler (C1, C2, C3, C4, C8, C10) -/

/-- C1: the Reconciler's computed CustomerRisk is
    round(0.30·sanctions + 0.25·pep + 0.20·adverseMedia + 0.15·ownership +
    0.10·identity) and its computed MatterRisk is round(0.40·matterType +
    0.40·sourceOfFunds + 0.20·transactionModifier), a missing sub-factor
    defaulting to 0 (`dictGet _ _ 0`); in particular Scenario C:
    sanctions = 100, all else absent, gives CustomerRisk 30. -/
theorem c1_weighted_subfactor_composites :
    (∀ sf, calc_weighted_customer sf = pythonRound (customerFormula sf)) ∧
    (∀ sf, calc_weighted_matter sf = pythonRound (matterFormula sf)) ∧
    calc_weighted_customer [("sanctions_exposure", 100)] = 30 :=
  ⟨calc_customer_eq_formula, calc_matter_eq_formula, by with_unfolding_all decide⟩

/-- C2: the computed Overall is round(0.40·cr + 0.35·mr + 0.20·jr + 0.05·dr)
    over the SELF-REPORTED component scores (missing components default to
    0), and there is a components map on which this differs from the
    composite recomputed from sub-factors. -/
theorem c2_overall_uses_self_reported :
    (∀ c, calc_weighted_overall c = pythonRound (overallSelfFormula c)) ∧
    (∃ c, calc_weighted_overall c ≠ overallRecomputed c) :=
  ⟨calc_overall_eq_formula,
   ⟨⟨some ⟨some 50, some []⟩, none, none, none⟩, by with_unfolding_all decide⟩⟩

/-- C3 counterexample: for the components map with delivery-channel risk 10
    (all else absent) the weighted sum is exactly 1/2, rounding upward
    would give 1, but the code computes 0 (Python's `round` ties to even). -/
theorem c3_counterexample :
    overallSelfFormula ⟨none, none, none, some 10⟩ = 1/2 ∧
    specRoundHalfUp (overallSelfFormula ⟨none, none, none, some 10⟩) = 1 ∧
    calc_weighted_overall ⟨none, none, none, some 10⟩ = 0 ∧ (0 : ℤ) ≠ 1 := by
  have h : overallSelfFormula ⟨none, none, none, some 10⟩ = 1/2 := by
    with_unfolding_all decide
  refine ⟨h, ?_, by with_unfolding_all decide, by decide⟩
  rw [h]
  unfold specRoundHalfUp
  norm_num

/-- C3 as amended: every composite is the weighted sum rounded to the
    nearest integer, but ties round to EVEN (Python banker's rounding), not
    up: a weighted sum of 0.5 yields 0 and one of 1.5 yields 2. -/
theorem c3_round_half_to_even :
    (∀ sf, calc_weighted_customer sf = pythonRound (customerFormula sf)) ∧
    (∀ sf, calc_weighted_matter sf = pythonRound (matterFormula sf)) ∧
    (∀ c, calc_weighted_overall c = pythonRound (overallSelfFormula c)) ∧
    (∀ q : ℚ, |((pythonRound q : ℤ) : ℚ) - q| ≤ 1/2) ∧
    (∀ q : ℚ, q - ⌊q⌋ = 1/2 → pythonRound q % 2 = 0) ∧
    calc_weighted_overall ⟨none, none, none, some 10⟩ = 0 ∧
    calc_weighted_overall ⟨none, none, none, some 30⟩ = 2 :=
  ⟨calc_customer_eq_formula, calc_matter_eq_formula, calc_overall_eq_formula,
   pythonRound_nearest, pythonRound_tie_even,
   by with_unfolding_all decide, by with_unfolding_all decide⟩

theorem c3_round_half_to_even_witness :
    ((3/2 : ℚ) - ⌊(3/2 : ℚ)⌋ = 1/2) ∧ pythonRound (3/2) % 2 = 0 :=
  ⟨by rw [← ratFloor_eq]; with_unfolding_all decide,
   c3_round_half_to_even.2.2.2.2.1 (3/2) (by rw [← ratFloor_eq]; with_unfolding_all decide)⟩

/-- C4: the discrepancy indicator fires iff |computed − self-reported| > 5
    (so not at a difference of exactly 5, and at a difference of exactly
    6), and the reconciliation output keeps the self-reported score
    unchanged alongside the computed one. -/
theorem c4_discrepancy_boundary :
    (∀ rs, (reconcile rs).discrepancy = true ↔
      |((reconcile rs).overall_calc : ℚ) - (reconcile rs).overall_ai| > 5) ∧
    (∀ rs, |((reconcile rs).overall_calc : ℚ) - (reconcile rs).overall_ai| = 5 →
      (reconcile rs).discrepancy = false) ∧
    (∀ rs, |((reconcile rs).overall_calc : ℚ) - (reconcile rs).overall_ai| = 6 →
      (reconcile rs).discrepancy = true) ∧
    (∀ rs, (reconcile rs).overall_ai = rs.overall_risk_score.getD 0 ∧
      (reconcile rs).overall_calc =
        calc_weighted_overall (rs.components.getD ⟨none, none, none, none⟩)) := by
  have hd : ∀ rs : RiskScoring, (reconcile rs).discrepancy = true ↔
      |((reconcile rs).overall_calc : ℚ) - (reconcile rs).overall_ai| > 5 := by
    intro rs
    show decide _ = true ↔ _
    rw [decide_eq_true_iff, pyAbs_eq]
    exact Iff.rfl
  refine ⟨hd, fun rs h => ?_, fun rs h => (hd rs).mpr (by rw [h]; norm_num), fun rs => ⟨rfl, rfl⟩⟩
  rw [← Bool.not_eq_true, hd rs, h]
  norm_num

theorem c4_discrepancy_boundary_witness :
    (|((reconcile ⟨some 5, none⟩).overall_calc : ℚ) - (reconcile ⟨some 5, none⟩).overall_ai| = 5 ∧
      (reconcile ⟨some 5, none⟩).discrepancy = false) ∧
    (|((reconcile ⟨some 6, none⟩).overall_calc : ℚ) - (reconcile ⟨some 6, none⟩).overall_ai| = 6 ∧
      (reconcile ⟨some 6, none⟩).discrepancy = true) := by
  have h5 : |((reconcile ⟨some 5, none⟩).overall_calc : ℚ) -
      (reconcile ⟨some 5, none⟩).overall_ai| = 5 := by
    have hc : (reconcile ⟨some 5, none⟩).overall_calc = 0 := by with_unfolding_all decide
    have ha : (reconcile ⟨some 5, none⟩).overall_ai = 5 := rfl
    rw [hc, ha]
    norm_num
  have h6 : |((reconcile ⟨some 6, none⟩).overall_calc : ℚ) -
      (reconcile ⟨some 6, none⟩).overall_ai| = 6 := by
    have hc : (reconcile ⟨some 6, none⟩).overall_calc = 0 := by with_unfolding_all decide
    have ha : (reconcile ⟨some 6, none⟩).overall_ai = 6 := rfl
    rw [hc, ha]
    norm_num
  exact ⟨⟨h5, c4_discrepancy_boundary.2.1 _ h5⟩, ⟨h6, c4_discrepancy_boundary.2.2.1 _ h6⟩⟩

/-- C8: over [0,100] the qualitative level has exactly the four contiguous
    bands [0,25] Low, [26,50] Medium, [51,75] High, [76,100] Critical. -/
theorem c8_level_bands (s : ℤ) (h0 : 0 ≤ s) (h100 : s ≤ 100) :
    (score_level s = "Low" ↔ 0 ≤ s ∧ s ≤ 25) ∧
    (score_level s = "Medium" ↔ 26 ≤ s ∧ s ≤ 50) ∧
    (score_level s = "High" ↔ 51 ≤ s ∧ s ≤ 75) ∧
    (score_level s = "Critical" ↔ 76 ≤ s ∧ s ≤ 100) := by
  unfold score_level
  split_ifs with h1 h2 h3 <;>
    refine ⟨⟨fun hh => ?_, fun hb => ?_⟩, ⟨fun hh => ?_, fun hb => ?_⟩,
            ⟨fun hh => ?_, fun hb => ?_⟩, ⟨fun hh => ?_, fun hb => ?_⟩⟩ <;>
    first
      | rfl
      | exact ⟨by omega, by omega⟩
      | exact absurd hh (by decide)
      | (exfalso; omega)

theorem c8_level_bands_witness :
    ((0 : ℤ) ≤ 60 ∧ (60 : ℤ) ≤ 100) ∧
    ((score_level 60 = "Low" ↔ 0 ≤ (60 : ℤ) ∧ (60 : ℤ) ≤ 25) ∧
     (score_level 60 = "Medium" ↔ 26 ≤ (60 : ℤ) ∧ (60 : ℤ) ≤ 50) ∧
     (score_level 60 = "High" ↔ 51 ≤ (60 : ℤ) ∧ (60 : ℤ) ≤ 75) ∧
     (score_level 60 = "Critical" ↔ 76 ≤ (60 : ℤ) ∧ (60 : ℤ) ≤ 100)) :=
  ⟨⟨by decide, by decide⟩, c8_level_bands 60 (by decide) (by decide)⟩

/-- C10 counterexample: at the claim's cited input (sanctions 200, all
    other customer sub-factors absent) the computed composite is 60, which
    lies INSIDE [0,100]. -/
theorem c10_counterexample :
    calc_weighted_customer [("sanctions_exposure", 200)] = 60 ∧
    (0 : ℤ) ≤ 60 ∧ (60 : ℤ) ≤ 100 :=
  ⟨by with_unfolding_all decide, by decide, by decide⟩

/-- C10 as amended: the Reconciler performs no range validation — each
    composite is exactly the rounded weighted sum for arbitrary inputs —
    and inputs outside [0,100] can produce composites outside [0,100]
    (e.g. sanctions 400 ↦ 120, matter type 300 ↦ 120, jurisdiction
    600 ↦ 120). -/
theorem c10_no_range_clamping :
    (∀ sf, calc_weighted_customer sf = pythonRound (customerFormula sf)) ∧
    (∀ sf, calc_weighted_matter sf = pythonRound (matterFormula sf)) ∧
    (∀ c, calc_weighted_overall c = pythonRound (overallSelfFormula c)) ∧
    calc_weighted_customer [("sanctions_exposure", 400)] = 120 ∧
    calc_weighted_matter [("matter_type", 300)] = 120 ∧
    calc_weighted_overall ⟨none, none, some 600, none⟩ = 120 ∧ (100 : ℤ) < 120 :=
  ⟨calc_customer_eq_formula, calc_matter_eq_formula, calc_overall_eq_formula,
   by with_unfolding_all decide, by with_unfolding_all decide,
   by with_unfolding_all decide, by decide⟩

/-! ### Claim theorems for the repair pass (C6) -/

theorem bracket_spec (c : Char) (hb : isCloseBracket c = true) :
    c ≠ ',' ∧ isPySpace c = false := by
  simp only [isCloseBracket, Bool.or_eq_true, decide_eq_true_eq] at hb
  rcases hb with h | h <;> subst h <;> exact ⟨by decide, rfl⟩

theorem space_not_bracket (c : Char) (h : isPySpace c = true) : isCloseBracket c = false := by
  by_cases h1 : c = '\x7d'
  · subst h1; exact absurd h (by decide)
  · by_cases h2 : c = ']'
    · subst h2; exact absurd h (by decide)
    · simp [isCloseBracket, h1, h2]

theorem space_not_comma (c : Char) (h : isPySpace c = true) : c ≠ ',' := by
  intro he
  subst he
  exact absurd h (by decide)

theorem noTrailGo_ws_append (l t : List Char) (h : l.all isPySpace = true) :
    noTrailGo true (l ++ t) = noTrailGo true t := by
  induction l with
  | nil => rfl
  | cons c rest ih =>
    simp only [List.all_cons, Bool.and_eq_true] at h
    simp only [List.cons_append, noTrailGo, space_not_bracket c h.1, h.1, if_false, if_true]
    exact ih h.2

theorem stcGo_fix (s : List Char) :
    (noTrailGo false s = true → stcGo none s = s) ∧
    (∀ ws : List Char, noTrailGo true s = true →
      stcGo (some ws) s = ',' :: (ws.reverse ++ s)) := by
  induction s with
  | nil => exact ⟨fun _ => rfl, fun ws _ => by simp [stcGo]⟩
  | cons c rest ih =>
    constructor
    · intro h
      by_cases hc : c = ','
      · subst hc
        have h' : noTrailGo true rest = true := by
          simpa [noTrailGo, isCloseBracket, isPySpace] using h
        have h2 := ih.2 [] h'
        simp [stcGo, isCloseBracket, isPySpace, h2]
      · have h' : noTrailGo false rest = true := by simpa [noTrailGo, hc] using h
        simp [stcGo, hc, ih.1 h']
    · intro ws h
      by_cases hb : isCloseBracket c = true
      · exact absurd h (by simp [noTrailGo, hb])
      · have hb' : isCloseBracket c = false := by simpa using hb
        by_cases hs : isPySpace c = true
        · have h' : noTrailGo true rest = true := by simpa [noTrailGo, hb', hs] using h
          have h2 := ih.2 (c :: ws) h'
          simp [stcGo, hb', hs, h2]
        · have hs' : isPySpace c = false := by simpa using hs
          by_cases hc : c = ','
          · subst hc
            have h' : noTrailGo true rest = true := by
              simpa [noTrailGo, isCloseBracket, isPySpace] using h
            have h2 := ih.2 [] h'
            simp [stcGo, isCloseBracket, isPySpace, h2]
          · have h' : noTrailGo false rest = true := by
              simpa [noTrailGo, hb', hs', hc] using h
            simp [stcGo, hb', hs', hc, ih.1 h']

theorem stcGo_noTrail (s : List Char) :
    (hscGo false s = false → noTrailGo false (stcGo none s) = true) ∧
    (∀ ws : List Char, ws.all isPySpace = true → hscGo true s = false →
      noTrailGo false (stcGo (some ws) s) = true) := by
  induction s with
  | nil =>
    refine ⟨fun _ => rfl, fun ws hws _ => ?_⟩
    have hrev : ws.reverse.all isPySpace = true := by simpa using hws
    show noTrailGo false (',' :: ws.reverse) = true
    have : noTrailGo true (ws.reverse ++ []) = noTrailGo true [] := noTrailGo_ws_append _ _ hrev
    simpa [noTrailGo] using this
  | cons c rest ih =>
    constructor
    · intro h
      by_cases hc : c = ','
      · subst hc
        have h' : hscGo true rest = false := by simpa [hscGo] using h
        have := ih.2 [] (by decide) h'
        simpa [stcGo] using this
      · have h' : hscGo false rest = false := by simpa [hscGo, hc] using h
        simp [stcGo, hc, noTrailGo, ih.1 h']
    · intro ws hws h
      by_cases hb : isCloseBracket c = true
      · obtain ⟨hcc, hcs⟩ := bracket_spec c hb
        have h' : hscGo false rest = false := by simpa [hscGo, hcc, hcs] using h
        simp [stcGo, hb, noTrailGo, hcc, ih.1 h']
      · have hb' : isCloseBracket c = false := by simpa using hb
        by_cases hs : isPySpace c = true
        · have h' : hscGo true rest = false := by
            simpa [hscGo, space_not_comma c hs, hs] using h
          have := ih.2 (c :: ws) (by simp [List.all_cons, hs, hws]) h'
          simpa [stcGo, hb', hs] using this
        · have hs' : isPySpace c = false := by simpa using hs
          by_cases hc : c = ','
          · subst hc
            exact absurd h (by simp [hscGo])
          · have h' : hscGo false rest = false := by simpa [hscGo, hc, hs'] using h
            have hrev : ws.reverse.all isPySpace = true := by simpa using hws
            have hrest := ih.1 h'
            have hthread := noTrailGo_ws_append ws.reverse (c :: stcGo none rest) hrev
            simp only [stcGo, hb', hs', hc, if_false]
            show noTrailGo false (',' :: (ws.reverse ++ (c :: stcGo none rest))) = true
            simp only [noTrailGo, if_pos rfl]
            rw [hthread]
            simp [noTrailGo, hb', hs', hc, hrest]

/-- C6 counterexample: on `",,}"` the repair pass gives `",}"`, and a second
    application gives `"}"`, so `repair(repair(s)) ≠ repair(s)`. -/
theorem c6_counterexample :
    stripTrailingCommas ",,\x7d".toList = ",\x7d".toList ∧
    stripTrailingCommas (stripTrailingCommas ",,\x7d".toList) = "\x7d".toList ∧
    stripTrailingCommas (stripTrailingCommas ",,\x7d".toList) ≠
      stripTrailingCommas ",,\x7d".toList :=
  ⟨rfl, rfl, by decide⟩

/-- C6 as amended: the trailing-separator repair pass is idempotent on every
    string that contains no two commas separated only by whitespace (no
    `,\s*,` pattern); stacked commas (e.g. `",,}"`) are removed only one
    per pass. -/
theorem c6_repair_idempotent_no_stacked (s : List Char)
    (h : hasStackedComma s = false) :
    stripTrailingCommas (stripTrailingCommas s) = stripTrailingCommas s :=
  (stcGo_fix (stripTrailingCommas s)).1 ((stcGo_noTrail s).1 h)

theorem c6_repair_idempotent_no_stacked_witness :
    hasStackedComma "a, \x7d b, ]".toList = false ∧
    stripTrailingCommas (stripTrailingCommas "a, \x7d b, ]".toList) =
      stripTrailingCommas "a, \x7d b, ]".toList :=
  ⟨by decide, c6_repair_idempotent_no_stacked _ (by decide)⟩

/-! ### Claim theorems for the Conversation Driver (C7, C9) -/

theorem driverExit_corrective_le_one (service : ℕ → AResponse) (k : ℕ)
    (audit : List AuditEntry) (resp : AResponse) :
    (driverExit service k audit resp).correctiveCalls ≤ 1 := by
  unfold driverExit
  dsimp only
  rcases hp : parse_report_json (resp.text.getD []) with _ | p <;> simp [hp]

theorem driverLoop_corrective_le_one (service : ℕ → AResponse) (env : ToolEnv) :
    ∀ fuel k audit prev, (driverLoop service env fuel k audit prev).correctiveCalls ≤ 1 := by
  intro fuel
  induction fuel with
  | zero => intro k audit prev; exact Nat.zero_le 1
  | succ n ih =>
    intro k audit prev
    unfold driverLoop
    split
    · dsimp only
      rcases hs : (service k).stop with _ | _ | _ <;> simp only [hs]
      · rcases hp : parse_report_json ((service k).text.getD []) with _ | p <;> simp [hp]
      · exact ih _ _ _
      · exact driverExit_corrective_le_one _ _ _ _
    · exact driverExit_corrective_le_one _ _ _ _

/-- C7 counterexample: with a reasoning service that never emits the
    final-answer signal (every response has an unrecognised stop signal and
    a non-extractable text), the Driver nonetheless issues a corrective
    request: the corrective round-trip is not restricted to final-answer
    exits. -/
theorem c7_counterexample :
    (run_cdd_research otherStopService nullEnv 30).correctiveCalls = 1 ∧
    (run_cdd_research otherStopService nullEnv 30).endedByFinalAnswer = false :=
  ⟨rfl, rfl⟩

/-- C7 as amended: the corrective round-trip (one extra reasoning-service
    request after which the extractor runs once more) may be issued on ANY
    loop exit — final answer, unrecognised signal, or budget exhaustion —
    whose final text fails extraction; in every session at most one such
    additional request is made, and no further extraction retries follow. -/
theorem c7_at_most_one_corrective :
    ∀ (service : ℕ → AResponse) (env : ToolEnv) (fuel : ℕ),
      (run_cdd_research service env fuel).correctiveCalls ≤ 1 :=
  fun service env fuel => driverLoop_corrective_le_one service env fuel 0 [] ⟨.other, none, []⟩

set_option maxHeartbeats 1600000 in
/-- C9: a tool request naming an unregistered tool gets the fixed
    `"Unknown tool."` string as its result, the Audit Log still records an
    entry for it, and the session continues to a successful extraction
    (no corrective request). -/
theorem c9_unknown_tool (env : ToolEnv) (name input : String)
    (h1 : name ≠ "sanctions_screen") (h2 : name ≠ "web_search")
    (h3 : name ≠ "fetch_webpage") :
    dispatchTool env name input = "Unknown tool." ∧
    (run_cdd_research (oneToolService name input) env 30).audit =
      [⟨name, input, "Unknown tool."⟩] ∧
    (run_cdd_research (oneToolService name input) env 30).parsed = some goodReport ∧
    (run_cdd_research (oneToolService name input) env 30).correctiveCalls = 0 := by
  have hd : dispatchTool env name input = "Unknown tool." := by
    simp [dispatchTool, h1, h2, h3]
  have hrun : run_cdd_research (oneToolService name input) env 30 =
      ⟨some goodReport, goodText,
       [⟨name, input, resultPreview (dispatchTool env name input)⟩], 0, true⟩ := rfl
  refine ⟨hd, ?_, ?_, ?_⟩ <;> rw [hrun] <;> rw [hd] <;> rfl

theorem c9_unknown_tool_witness :
    ("mystery_tool" ≠ "sanctions_screen" ∧ "mystery_tool" ≠ "web_search" ∧
      "mystery_tool" ≠ "fetch_webpage") ∧
    (dispatchTool nullEnv "mystery_tool" "x" = "Unknown tool." ∧
     (run_cdd_research (oneToolService "mystery_tool" "x") nullEnv 30).audit =
       [⟨"mystery_tool", "x", "Unknown tool."⟩] ∧
     (run_cdd_research (oneToolService "mystery_tool" "x") nullEnv 30).parsed =
       some goodReport ∧
     (run_cdd_research (oneToolService "mystery_tool" "x") nullEnv 30).correctiveCalls = 0) :=
  ⟨⟨by decide, by decide, by decide⟩,
   c9_unknown_tool nullEnv "mystery_tool" "x" (by decide) (by decide) (by decide)⟩

/-! ### Round-trip lemmas: digits and numbers -/

theorem digitChar_props (d : ℕ) :
    isJsonWs (digitChar d) = false ∧ isPySpace (digitChar d) = false ∧
    isDigitC (digitChar d) = true ∧ digitChar d ≠ backtick ∧
    digitChar d ≠ ']' ∧ digitChar d ≠ '\x7d' ∧ digitChar d ≠ '\x7b' ∧
    digitChar d ≠ '[' ∧ digitChar d ≠ '"' ∧ digitChar d ≠ 't' ∧
    digitChar d ≠ 'f' ∧ digitChar d ≠ 'n' ∧ digitChar d ≠ '-' := by
  unfold digitChar
  split <;>
    exact ⟨rfl, rfl, by decide, by decide, by decide, by decide, by decide, by decide,
      by decide, by decide, by decide, by decide, by decide⟩

theorem digitChar_val (d : ℕ) (h : d < 10) : (digitChar d).toNat - 48 = d := by
  interval_cases d <;> decide

theorem digitChar_ne_zero_char (d : ℕ) (h : d < 10) (h0 : d ≠ 0) : digitChar d ≠ '0' := by
  interval_cases d <;> first | exact absurd rfl h0 | decide

theorem natToCharsAux_eq (fuel : ℕ) :
    ∀ n acc, n ≤ fuel →
      natToCharsAux fuel n acc = (Nat.digits 10 n).reverse.map digitChar ++ acc := by
  induction fuel with
  | zero =>
    intro n acc h
    interval_cases n
    simp [natToCharsAux]
  | succ f ih =>
    intro n acc h
    by_cases hn : n = 0
    · subst hn; simp [natToCharsAux]
    · show (if n = 0 then acc else natToCharsAux f (n / 10) (digitChar (n % 10) :: acc)) = _
      rw [if_neg hn]
      rw [ih (n / 10) _ (by
        have := Nat.div_lt_self (Nat.pos_of_ne_zero hn) (by norm_num : 1 < 10)
        omega)]
      rw [Nat.digits_def' (by norm_num : (1:ℕ) < 10) (Nat.pos_of_ne_zero hn)]
      simp [List.reverse_cons, List.map_append, List.append_assoc]

theorem natToChars_eq (n : ℕ) (hn : n ≠ 0) :
    natToChars n = (Nat.digits 10 n).reverse.map digitChar := by
  unfold natToChars
  rw [if_neg hn, natToCharsAux_eq (n + 1) n [] (by omega)]
  simp

theorem foldl_digits (ds : List ℕ) (hds : ∀ d ∈ ds, d < 10) :
    ∀ a, List.foldl (fun x c => 10 * x + (c.toNat - 48)) a (ds.reverse.map digitChar) =
      a * 10 ^ ds.length + Nat.ofDigits 10 ds := by
  induction ds with
  | nil => intro a; simp [Nat.ofDigits]
  | cons d t ih =>
    intro a
    rw [List.reverse_cons, List.map_append, List.foldl_append]
    simp only [List.map_cons, List.map_nil, List.foldl_cons, List.foldl_nil]
    rw [ih (fun x hx => hds x (List.mem_cons_of_mem _ hx))]
    rw [digitChar_val d (hds d (List.mem_cons_self _ _))]
    rw [Nat.ofDigits_cons]
    simp only [List.length_cons, pow_succ]
    ring

theorem natToChars_shape (n : ℕ) :
    ∃ d t, natToChars n = digitChar d :: t ∧ d < 10 ∧
      t.all isDigitC = true ∧ digitsVal (digitChar d :: t) = n ∧
      (d = 0 → t = [] ∧ n = 0) := by
  by_cases hn : n = 0
  · subst hn
    exact ⟨0, [], rfl, by norm_num, rfl, rfl, fun _ => ⟨rfl, rfl⟩⟩
  · have hne : Nat.digits 10 n ≠ [] := Nat.digits_ne_nil_iff_ne_zero.mpr hn
    have hrevne : (Nat.digits 10 n).reverse ≠ [] := by simpa using hne
    obtain ⟨dk, rtl, hrev⟩ := List.exists_cons_of_ne_nil hrevne
    have hmem : dk ∈ Nat.digits 10 n := by
      have : dk ∈ (Nat.digits 10 n).reverse := by rw [hrev]; exact List.mem_cons_self _ _
      simpa using this
    have hd10 : dk < 10 := Nat.digits_lt_base (by norm_num) hmem
    have hlast : (Nat.digits 10 n).getLast hne = dk := by
      have h1 : (Nat.digits 10 n).reverse.head? = some dk := by rw [hrev]; rfl
      rw [List.head?_reverse, List.getLast?_eq_getLast _ hne] at h1
      exact Option.some_inj.mp h1
    have hdk0 : dk ≠ 0 := hlast ▸ Nat.getLast_digit_ne_zero 10 hn
    refine ⟨dk, rtl.map digitChar, ?_, hd10, ?_, ?_, fun h0 => absurd h0 hdk0⟩
    · rw [natToChars_eq n hn, hrev, List.map_cons]
    · simp only [List.all_eq_true, List.mem_map]
      rintro x ⟨d', -, rfl⟩
      exact (digitChar_props d').2.2.1
    · have : digitChar dk :: rtl.map digitChar = (Nat.digits 10 n).reverse.map digitChar := by
        rw [hrev, List.map_cons]
      rw [this]
      unfold digitsVal
      rw [foldl_digits (Nat.digits 10 n) (fun d hd => Nat.digits_lt_base (by norm_num) hd) 0]
      simp [Nat.ofDigits_digits]

theorem takeWhile_all_append (p : Char → Bool) (l t : List Char) (hl : l.all p = true)
    (ht : headSafe p t) : (l ++ t).takeWhile p = l ∧ (l ++ t).dropWhile p = t := by
  induction l with
  | nil =>
    cases t with
    | nil => exact ⟨rfl, rfl⟩
    | cons c r =>
      unfold headSafe at ht
      simp [List.takeWhile_cons, List.dropWhile_cons, ht]
  | cons c r ih =>
    simp only [List.all_cons, Bool.and_eq_true] at hl
    have := ih hl.2
    simp [List.takeWhile_cons, List.dropWhile_cons, hl.1, this.1, this.2]

theorem parseIntPart_natToChars (n : ℕ) (rest : List Char) (h : headSafe isDigitC rest) :
    parseIntPart (natToChars n ++ rest) = some (n, rest) := by
  obtain ⟨d, t, heq, hd10, hall, hval, h0⟩ := natToChars_shape n
  rw [heq]
  by_cases hd0 : d = 0
  · obtain ⟨ht, hn⟩ := h0 hd0
    subst ht hn hd0
    rfl
  · have hne0 : digitChar d ≠ '0' := digitChar_ne_zero_char d hd10 hd0
    have htw := takeWhile_all_append isDigitC t rest hall h
    simp only [List.cons_append, parseIntPart, hne0, if_false,
      (digitChar_props d).2.2.1, if_true, htw.1, htw.2]
    rw [hval]

theorem parseNumL_intToChars (z : ℤ) (rest : List Char) (h : numSafe rest) :
    parseNumL (intToChars z ++ rest) = some (z, rest) := by
  have hds : headSafe isDigitC rest := by
    cases rest with
    | nil => trivial
    | cons c r => exact h.1
  have hguard : guardNoFloatTail rest = some rest := by
    cases rest with
    | nil => rfl
    | cons c r =>
      obtain ⟨-, h2, h3, h4⟩ := h
      simp [guardNoFloatTail, h2, h3, h4]
  cases z with
  | ofNat n =>
    obtain ⟨d, t, heq, -, -, -, -⟩ := natToChars_shape n
    have hip := parseIntPart_natToChars n rest hds
    have hdash : digitChar d ≠ '-' := (digitChar_props d).2.2.2.2.2.2.2.2.2.2.2.2
    show parseNumL (natToChars n ++ rest) = some ((n : ℤ), rest)
    rw [heq] at hip ⊢
    rw [List.cons_append] at hip ⊢
    simp only [parseNumL, if_neg hdash]
    rw [hip]
    simp [hguard]
  | negSucc m =>
    have hip := parseIntPart_natToChars (m + 1) rest hds
    show parseNumL ('-' :: (natToChars (m + 1) ++ rest)) = some (Int.negSucc m, rest)
    simp only [parseNumL, if_pos rfl]
    rw [hip]
    simp [hguard, Int.negSucc_eq]

/-! ### Round-trip lemmas: strings -/

theorem hexValC_hexDigitChar (d : ℕ) (h : d < 16) : hexValC (hexDigitChar d) = some d := by
  interval_cases d <;> decide

theorem parseStrL_quote (rest : List Char) : parseStrL ('"' :: rest) = some ([], rest) := by
  unfold parseStrL
  simp

theorem parseStrL_escaped (e c' : Char) (he : escDecode e = some c') (hu : e ≠ 'u')
    (rest : List Char) :
    parseStrL ('\\' :: e :: rest) = (parseStrL rest).map (fun p => (c' :: p.1, p.2)) := by
  conv_lhs => unfold parseStrL
  simp [he, hu]

theorem parseStrL_unicode (h1 h2 h3 h4 : Char) (a b c' d : ℕ)
    (ha : hexValC h1 = some a) (hb : hexValC h2 = some b) (hc : hexValC h3 = some c')
    (hd : hexValC h4 = some d) (rest : List Char) :
    parseStrL ('\\' :: 'u' :: h1 :: h2 :: h3 :: h4 :: rest) =
      (parseStrL rest).map
        (fun p => (Char.ofNat (((a * 16 + b) * 16 + c') * 16 + d) :: p.1, p.2)) := by
  conv_lhs => unfold parseStrL
  simp [ha, hb, hc, hd]

theorem parseStrL_plain (c : Char) (hq : c ≠ '"') (hbs : c ≠ '\\')
    (hctrl : ¬(c.toNat < 0x20)) (rest : List Char) :
    parseStrL (c :: rest) = (parseStrL rest).map (fun p => (c :: p.1, p.2)) := by
  conv_lhs => unfold parseStrL
  simp [hq, hbs, hctrl]

theorem escChar_ctrl (c : Char) (h1 : c ≠ '"') (h2 : c ≠ '\\') (h3 : c ≠ '\n')
    (h4 : c ≠ '\t') (h5 : c ≠ '\r') (h6 : c ≠ '\x08') (h7 : c ≠ '\x0c')
    (h8 : c.toNat < 0x20) :
    escChar c = ['\\', 'u', '0', '0', hexDigitChar (c.toNat / 16), hexDigitChar (c.toNat % 16)] := by
  unfold escChar
  rw [if_neg h1, if_neg h2, if_neg h3, if_neg h4, if_neg h5, if_neg h6, if_neg h7, if_pos h8]

theorem escChar_plain (c : Char) (h1 : c ≠ '"') (h2 : c ≠ '\\') (h3 : c ≠ '\n')
    (h4 : c ≠ '\t') (h5 : c ≠ '\r') (h6 : c ≠ '\x08') (h7 : c ≠ '\x0c')
    (h8 : ¬(c.toNat < 0x20)) : escChar c = [c] := by
  unfold escChar
  rw [if_neg h1, if_neg h2, if_neg h3, if_neg h4, if_neg h5, if_neg h6, if_neg h7, if_neg h8]

theorem parseStrL_esc (s : List Char) : ∀ rest,
    parseStrL ((s.map escChar).flatten ++ '"' :: rest) = some (s, rest) := by
  induction s with
  | nil => intro rest; exact parseStrL_quote rest
  | cons c t ih =>
    intro rest
    rw [List.map_cons, List.flatten_cons, List.append_assoc]
    by_cases h1 : c = '"'
    · subst h1
      rw [show escChar '"' = ['\\', '"'] from rfl]
      simp only [List.cons_append, List.nil_append]
      rw [parseStrL_escaped '"' '"' (by decide) (by decide), ih rest]
      rfl
    by_cases h2 : c = '\\'
    · subst h2
      rw [show escChar '\\' = ['\\', '\\'] from rfl]
      simp only [List.cons_append, List.nil_append]
      rw [parseStrL_escaped '\\' '\\' (by decide) (by decide), ih rest]
      rfl
    by_cases h3 : c = '\n'
    · subst h3
      rw [show escChar '\n' = ['\\', 'n'] from rfl]
      simp only [List.cons_append, List.nil_append]
      rw [parseStrL_escaped 'n' '\n' (by decide) (by decide), ih rest]
      rfl
    by_cases h4 : c = '\t'
    · subst h4
      rw [show escChar '\t' = ['\\', 't'] from rfl]
      simp only [List.cons_append, List.nil_append]
      rw [parseStrL_escaped 't' '\t' (by decide) (by decide), ih rest]
      rfl
    by_cases h5 : c = '\r'
    · subst h5
      rw [show escChar '\r' = ['\\', 'r'] from rfl]
      simp only [List.cons_append, List.nil_append]
      rw [parseStrL_escaped 'r' '\r' (by decide) (by decide), ih rest]
      rfl
    by_cases h6 : c = '\x08'
    · subst h6
      rw [show escChar '\x08' = ['\\', 'b'] from rfl]
      simp only [List.cons_append, List.nil_append]
      rw [parseStrL_escaped 'b' '\x08' (by decide) (by decide), ih rest]
      rfl
    by_cases h7 : c = '\x0c'
    · subst h7
      rw [show escChar '\x0c' = ['\\', 'f'] from rfl]
      simp only [List.cons_append, List.nil_append]
      rw [parseStrL_escaped 'f' '\x0c' (by decide) (by decide), ih rest]
      rfl
    by_cases h8 : c.toNat < 0x20
    · rw [escChar_ctrl c h1 h2 h3 h4 h5 h6 h7 h8]
      simp only [List.cons_append, List.nil_append]
      have hdiv : c.toNat / 16 < 16 := by omega
      have hmod : c.toNat % 16 < 16 := by omega
      rw [parseStrL_unicode '0' '0' (hexDigitChar (c.toNat / 16)) (hexDigitChar (c.toNat % 16))
        0 0 (c.toNat / 16) (c.toNat % 16) (by decide) (by decide)
        (hexValC_hexDigitChar _ hdiv) (hexValC_hexDigitChar _ hmod), ih rest]
      have harith : ((0 * 16 + 0) * 16 + c.toNat / 16) * 16 + c.toNat % 16 = c.toNat := by
        omega
      rw [harith, Char.ofNat_toNat]
      rfl
    · rw [escChar_plain c h1 h2 h3 h4 h5 h6 h7 h8]
      simp only [List.cons_append, List.nil_append]
      rw [parseStrL_plain c h1 h2 h8, ih rest]
      rfl

/-! ### Round-trip lemmas: document shape and value parsing -/

theorem skipWs_cons_neg {c : Char} (h : isJsonWs c = false) (t : List Char) :
    skipWs (c :: t) = c :: t := by
  simp [skipWs, List.dropWhile_cons, h]

theorem parseVal_quote (fuel : ℕ) (rest : List Char) :
    parseVal (fuel + 1) ('"' :: rest) = (parseStrL rest).map (fun p => (J.str p.1, p.2)) := rfl

theorem parseVal_minus (fuel : ℕ) (rest : List Char) :
    parseVal (fuel + 1) ('-' :: rest) =
      (parseNumL ('-' :: rest)).map (fun p => (J.num p.1, p.2)) := rfl

theorem parseVal_lbrace (fuel : ℕ) (rest : List Char) :
    parseVal (fuel + 1) ('\x7b' :: rest) =
      (match skipWs rest with
       | '\x7d' :: r => some (J.obj [], r)
       | s2 => (parseMembers fuel s2).map (fun p => (J.obj p.1, p.2))) := rfl

theorem parseVal_lbrack (fuel : ℕ) (rest : List Char) :
    parseVal (fuel + 1) ('[' :: rest) =
      (match skipWs rest with
       | ']' :: r => some (J.arr [], r)
       | s2 => (parseElems fuel s2).map (fun p => (J.arr p.1, p.2))) := rfl

theorem parseMembers_cons (fuel : ℕ) (X : List Char) :
    parseMembers (fuel + 1) ('"' :: X) =
      ((parseStrL X).bind fun pk =>
        match skipWs pk.2 with
        | ':' :: r2 =>
          (parseVal fuel (skipWs r2)).bind fun pv =>
            (match skipWs pv.2 with
             | ',' :: r4 =>
               (parseMembers fuel (skipWs r4)).map fun pf => ((pk.1, pv.1) :: pf.1, pf.2)
             | '\x7d' :: r4 => some ([(pk.1, pv.1)], r4)
             | _ => none)
        | _ => none) := rfl

theorem parseElems_eq (fuel : ℕ) (s : List Char) :
    parseElems (fuel + 1) s =
      ((parseVal fuel s).bind fun pv =>
        match skipWs pv.2 with
        | ',' :: r2 => (parseElems fuel (skipWs r2)).map fun pe => (pv.1 :: pe.1, pe.2)
        | ']' :: r2 => some ([pv.1], r2)
        | _ => none) := rfl

theorem parseVal_default (fuel : ℕ) (c : Char) (X : List Char) (hws : isJsonWs c = false)
    (h1 : c ≠ '\x7b') (h2 : c ≠ '[') (h3 : c ≠ '"') (h4 : c ≠ 't') (h5 : c ≠ 'f')
    (h6 : c ≠ 'n') :
    parseVal (fuel + 1) (c :: X) = (parseNumL (c :: X)).map (fun p => (J.num p.1, p.2)) := by
  conv_lhs => unfold parseVal
  rw [skipWs_cons_neg hws]
  split <;> simp_all

theorem natToChars_last (n : ℕ) : ∃ d pre, natToChars n = pre ++ [digitChar d] := by
  by_cases hn : n = 0
  · exact ⟨0, [], by subst hn; rfl⟩
  · have hne : Nat.digits 10 n ≠ [] := Nat.digits_ne_nil_iff_ne_zero.mpr hn
    obtain ⟨d0, tl, hds⟩ := List.exists_cons_of_ne_nil hne
    refine ⟨d0, tl.reverse.map digitChar, ?_⟩
    rw [natToChars_eq n hn, hds]
    simp [List.reverse_cons, List.map_append]

theorem dumpsL_shape (O : J) :
    ∃ c t, dumpsL O = c :: t ∧ isJsonWs c = false ∧ isPySpace c = false ∧
      c ≠ backtick ∧ c ≠ ']' := by
  cases O with
  | null => exact ⟨'n', _, rfl, by decide, by decide, by decide, by decide⟩
  | bool b =>
    cases b
    · exact ⟨'f', _, rfl, by decide, by decide, by decide, by decide⟩
    · exact ⟨'t', _, rfl, by decide, by decide, by decide, by decide⟩
  | num z =>
    cases z with
    | ofNat m =>
      obtain ⟨d, t, heq, -, -, -, -⟩ := natToChars_shape m
      exact ⟨digitChar d, t, heq, (digitChar_props d).1, (digitChar_props d).2.1,
        (digitChar_props d).2.2.2.1, (digitChar_props d).2.2.2.2.1⟩
    | negSucc m => exact ⟨'-', _, rfl, by decide, by decide, by decide, by decide⟩
  | str s => exact ⟨'"', _, rfl, by decide, by decide, by decide, by decide⟩
  | arr es => exact ⟨'[', _, rfl, by decide, by decide, by decide, by decide⟩
  | obj fs => exact ⟨'\x7b', _, rfl, by decide, by decide, by decide, by decide⟩

theorem dumpsL_last (O : J) :
    ∃ c, (dumpsL O).getLast? = some c ∧ isPySpace c = false ∧ c ≠ backtick := by
  cases O with
  | null => exact ⟨'l', rfl, by decide, by decide⟩
  | bool b =>
    cases b
    · exact ⟨'e', rfl, by decide, by decide⟩
    · exact ⟨'e', rfl, by decide, by decide⟩
  | num z =>
    cases z with
    | ofNat m =>
      obtain ⟨d, pre, heq⟩ := natToChars_last m
      refine ⟨digitChar d, ?_, (digitChar_props d).2.1, (digitChar_props d).2.2.2.1⟩
      show (natToChars m).getLast? = _
      rw [heq, List.getLast?_concat]
    | negSucc m =>
      obtain ⟨d, pre, heq⟩ := natToChars_last (m + 1)
      refine ⟨digitChar d, ?_, (digitChar_props d).2.1, (digitChar_props d).2.2.2.1⟩
      show ('-' :: natToChars (m + 1)).getLast? = _
      rw [heq, ← List.cons_append, List.getLast?_concat]
  | str s =>
    refine ⟨'"', ?_, by decide, by decide⟩
    show ('"' :: ((s.map escChar).flatten ++ ['"'])).getLast? = _
    rw [← List.cons_append, List.getLast?_concat]
  | arr es =>
    refine ⟨']', ?_, by decide, by decide⟩
    show ('[' :: (dumpsArr es ++ [']'])).getLast? = _
    rw [← List.cons_append, List.getLast?_concat]
  | obj fs =>
    refine ⟨'\x7d', ?_, by decide, by decide⟩
    show ('\x7b' :: (dumpsObj fs ++ ['\x7d'])).getLast? = _
    rw [← List.cons_append, List.getLast?_concat]

theorem revHead_of_getLast {l : List Char} {c : Char} (h : l.getLast? = some c) :
    ∃ r, l.reverse = c :: r := by
  have h1 : l.reverse.head? = some c := by rw [List.head?_reverse]; exact h
  cases hrev : l.reverse with
  | nil => rw [hrev] at h1; exact absurd h1 (by simp)
  | cons x r =>
    rw [hrev] at h1
    simp only [List.head?_cons, Option.some.injEq] at h1
    exact ⟨r, by rw [h1]⟩

theorem skipWs_space (Y : List Char) : skipWs (' ' :: Y) = skipWs Y := by
  show List.dropWhile isJsonWs (' ' :: Y) = _
  rw [List.dropWhile_cons_of_pos (by decide)]
  rfl

theorem parse_dumps (fuel : ℕ) :
    (∀ (O : J) (rest : List Char), numSafe rest → 2 * (dumpsL O ++ rest).length < fuel →
      parseVal fuel (dumpsL O ++ rest) = some (O, rest)) ∧
    (∀ (fs : List (List Char × J)) (rest : List Char), fs ≠ [] →
      2 * (dumpsObj fs ++ '\x7d' :: rest).length + 1 < fuel →
      parseMembers fuel (dumpsObj fs ++ '\x7d' :: rest) = some (fs, rest)) ∧
    (∀ (es : List J) (rest : List Char), es ≠ [] →
      2 * (dumpsArr es ++ ']' :: rest).length + 1 < fuel →
      parseElems fuel (dumpsArr es ++ ']' :: rest) = some (es, rest)) := by
  induction fuel with
  | zero =>
    exact ⟨fun O rest _ h => absurd h (by omega), fun fs rest _ h => absurd h (by omega),
      fun es rest _ h => absurd h (by omega)⟩
  | succ n ih =>
    obtain ⟨ihV, ihM, ihE⟩ := ih
    refine ⟨?_, ?_, ?_⟩
    · intro O rest hns hlen
      cases O with
      | null => rfl
      | bool b => cases b <;> rfl
      | num z =>
        cases z with
        | ofNat m =>
          obtain ⟨d, t, heq, -, -, -, -⟩ := natToChars_shape m
          obtain ⟨pjw, ppy, pdg, pbt, pbr, pbrc, plbc, plbk, pq, pt, pf, pn, pdash⟩ :=
            digitChar_props d
          have hnum := parseNumL_intToChars (Int.ofNat m) rest hns
          show parseVal (n + 1) (natToChars m ++ rest) = some (J.num (Int.ofNat m), rest)
          rw [heq, List.cons_append,
            parseVal_default n (digitChar d) (t ++ rest) pjw plbc plbk pq pt pf pn,
            ← List.cons_append, ← heq]
          show (parseNumL (intToChars (Int.ofNat m) ++ rest)).map (fun p => (J.num p.1, p.2)) = _
          rw [hnum]
          rfl
        | negSucc m =>
          have hnum := parseNumL_intToChars (Int.negSucc m) rest hns
          show parseVal (n + 1) ('-' :: (natToChars (m + 1) ++ rest)) =
            some (J.num (Int.negSucc m), rest)
          rw [parseVal_minus]
          show (parseNumL (intToChars (Int.negSucc m) ++ rest)).map (fun p => (J.num p.1, p.2)) = _
          rw [hnum]
          rfl
      | str s =>
        have h1 : dumpsL (J.str s) ++ rest =
            '"' :: ((s.map escChar).flatten ++ '"' :: rest) := by
          show ('"' :: ((s.map escChar).flatten ++ ['"'])) ++ rest = _
          simp [List.cons_append, List.append_assoc]
        rw [h1, parseVal_quote, parseStrL_esc s rest]
        rfl
      | arr es =>
        cases es with
        | nil => rfl
        | cons e es' =>
          obtain ⟨c, t, heqe, hws, -, -, hnbr⟩ := dumpsL_shape e
          have hA : ∃ A, dumpsArr (e :: es') = dumpsL e ++ A := by
            cases es' with
            | nil => exact ⟨[], by simp [dumpsArr]⟩
            | cons e2 es'' => exact ⟨_, rfl⟩
          obtain ⟨A, hA⟩ := hA
          have h1 : dumpsL (J.arr (e :: es')) ++ rest =
              '[' :: (dumpsArr (e :: es') ++ ']' :: rest) := by
            show ('[' :: (dumpsArr (e :: es') ++ [']'])) ++ rest = _
            simp [List.cons_append, List.append_assoc]
          have h3 : dumpsArr (e :: es') ++ ']' :: rest = c :: ((t ++ A) ++ ']' :: rest) := by
            rw [hA, heqe]
            simp [List.cons_append, List.append_assoc]
          have hlen' : 2 * (dumpsArr (e :: es') ++ ']' :: rest).length + 1 < n := by
            rw [h1] at hlen
            simp only [List.length_cons, List.length_append] at hlen ⊢
            omega
          rw [h1, parseVal_lbrack]
          have h2 : skipWs (dumpsArr (e :: es') ++ ']' :: rest) =
              dumpsArr (e :: es') ++ ']' :: rest := by
            rw [h3]
            exact skipWs_cons_neg hws _
          rw [h2, h3]
          split
          · rename_i r heq2
            exact absurd (List.cons.injEq _ _ _ _ ▸ heq2 : _ ∧ _).1 hnbr
          · rw [← h3, ihE (e :: es') rest (by simp) hlen']
            rfl
      | obj fs =>
        cases fs with
        | nil => rfl
        | cons kv fs' =>
          obtain ⟨k, v⟩ := kv
          have hB : ∃ B, dumpsObj ((k, v) :: fs') = dumpsStr k ++ B := by
            cases fs' with
            | nil => exact ⟨_, rfl⟩
            | cons kv2 fs'' => exact ⟨_, List.append_assoc _ _ _⟩
          obtain ⟨B, hB⟩ := hB
          have h0 : ∃ Z, dumpsObj ((k, v) :: fs') ++ '\x7d' :: rest = '"' :: Z := by
            rw [hB]
            exact ⟨_, rfl⟩
          obtain ⟨Z, hZ⟩ := h0
          have h1 : dumpsL (J.obj ((k, v) :: fs')) ++ rest =
              '\x7b' :: (dumpsObj ((k, v) :: fs') ++ '\x7d' :: rest) := by
            show ('\x7b' :: (dumpsObj ((k, v) :: fs') ++ ['\x7d'])) ++ rest = _
            simp [List.cons_append, List.append_assoc]
          have hlen' : 2 * (dumpsObj ((k, v) :: fs') ++ '\x7d' :: rest).length + 1 < n := by
            rw [h1] at hlen
            simp only [List.length_cons, List.length_append] at hlen ⊢
            omega
          rw [h1, parseVal_lbrace]
          have h2 : skipWs (dumpsObj ((k, v) :: fs') ++ '\x7d' :: rest) =
              dumpsObj ((k, v) :: fs') ++ '\x7d' :: rest := by
            rw [hZ]
            exact skipWs_cons_neg (by decide) _
          rw [h2]
          split
          · rename_i r heq2
            rw [hZ] at heq2
            exact absurd (List.cons.injEq _ _ _ _ ▸ heq2 : _ ∧ _).1 (by decide)
          · rw [ihM ((k, v) :: fs') rest (by simp) hlen']
            rfl
    · intro fs rest hne hlen
      cases fs with
      | nil => exact absurd rfl hne
      | cons kv fs' =>
        obtain ⟨k, v⟩ := kv
        obtain ⟨cv, tv, heqv, hwsv, -, -, -⟩ := dumpsL_shape v
        cases fs' with
        | nil =>
          have h1 : dumpsObj [(k, v)] ++ '\x7d' :: rest =
              '"' :: ((k.map escChar).flatten ++ '"' ::
                (':' :: ' ' :: (dumpsL v ++ '\x7d' :: rest))) := by
            show (dumpsStr k ++ ':' :: ' ' :: dumpsL v) ++ '\x7d' :: rest = _
            show (('"' :: ((k.map escChar).flatten ++ ['"'])) ++ ':' :: ' ' :: dumpsL v) ++
              '\x7d' :: rest = _
            simp [List.cons_append, List.append_assoc]
          have hlenv : 2 * (dumpsL v ++ '\x7d' :: rest).length < n := by
            rw [h1] at hlen
            simp only [List.length_cons, List.length_append] at hlen ⊢
            omega
          rw [h1, parseMembers_cons, parseStrL_esc k _]
          show (parseVal n (skipWs (' ' :: (dumpsL v ++ '\x7d' :: rest)))).bind
              (fun pv =>
                match skipWs pv.2 with
                | ',' :: r4 =>
                  (parseMembers n (skipWs r4)).map fun pf => ((k, pv.1) :: pf.1, pf.2)
                | '\x7d' :: r4 => some ([(k, pv.1)], r4)
                | _ => none) = some ([(k, v)], rest)
          have h2 : skipWs (' ' :: (dumpsL v ++ '\x7d' :: rest)) =
              dumpsL v ++ '\x7d' :: rest := by
            rw [skipWs_space, heqv, List.cons_append]
            exact skipWs_cons_neg hwsv _
          rw [h2, ihV v ('\x7d' :: rest)
            (by exact ⟨by decide, by decide, by decide, by decide⟩) hlenv]
          rfl
        | cons kv2 fs'' =>
          obtain ⟨k2, v2⟩ := kv2
          have hobj2 : ∃ Z2, dumpsObj ((k2, v2) :: fs'') = '"' :: Z2 := by
            have hB : ∃ B, dumpsObj ((k2, v2) :: fs'') = dumpsStr k2 ++ B := by
              cases fs'' with
              | nil => exact ⟨_, rfl⟩
              | cons kv3 fs''' => exact ⟨_, List.append_assoc _ _ _⟩
            obtain ⟨B, hB⟩ := hB
            rw [hB]
            exact ⟨_, rfl⟩
          obtain ⟨Z2, hZ2⟩ := hobj2
          have h1 : dumpsObj ((k, v) :: (k2, v2) :: fs'') ++ '\x7d' :: rest =
              '"' :: ((k.map escChar).flatten ++ '"' ::
                (':' :: ' ' :: (dumpsL v ++ ',' :: ' ' ::
                  (dumpsObj ((k2, v2) :: fs'') ++ '\x7d' :: rest)))) := by
            show ((dumpsStr k ++ ':' :: ' ' :: dumpsL v) ++ ',' :: ' ' ::
                dumpsObj ((k2, v2) :: fs'')) ++ '\x7d' :: rest = _
            show ((('"' :: ((k.map escChar).flatten ++ ['"'])) ++ ':' :: ' ' :: dumpsL v) ++
                ',' :: ' ' :: dumpsObj ((k2, v2) :: fs'')) ++ '\x7d' :: rest = _
            simp [List.cons_append, List.append_assoc]
          have hlenv : 2 * (dumpsL v ++ ',' :: ' ' ::
              (dumpsObj ((k2, v2) :: fs'') ++ '\x7d' :: rest)).length < n := by
            rw [h1] at hlen
            simp only [List.length_cons, List.length_append] at hlen ⊢
            omega
          have hlen2 : 2 * (dumpsObj ((k2, v2) :: fs'') ++ '\x7d' :: rest).length + 1 < n := by
            rw [h1] at hlen
            simp only [List.length_cons, List.length_append] at hlen ⊢
            omega
          rw [h1, parseMembers_cons, parseStrL_esc k _]
          show (parseVal n (skipWs (' ' :: (dumpsL v ++ ',' :: ' ' ::
              (dumpsObj ((k2, v2) :: fs'') ++ '\x7d' :: rest))))).bind
              (fun pv =>
                match skipWs pv.2 with
                | ',' :: r4 =>
                  (parseMembers n (skipWs r4)).map fun pf => ((k, pv.1) :: pf.1, pf.2)
                | '\x7d' :: r4 => some ([(k, pv.1)], r4)
                | _ => none) = some ((k, v) :: (k2, v2) :: fs'', rest)
          have h2 : skipWs (' ' :: (dumpsL v ++ ',' :: ' ' ::
              (dumpsObj ((k2, v2) :: fs'') ++ '\x7d' :: rest))) =
              dumpsL v ++ ',' :: ' ' :: (dumpsObj ((k2, v2) :: fs'') ++ '\x7d' :: rest) := by
            rw [skipWs_space, heqv, List.cons_append]
            exact skipWs_cons_neg hwsv _
          rw [h2, ihV v (',' :: ' ' :: (dumpsObj ((k2, v2) :: fs'') ++ '\x7d' :: rest))
            (by exact ⟨by decide, by decide, by decide, by decide⟩) hlenv]
          show (parseMembers n (skipWs (' ' :: (dumpsObj ((k2, v2) :: fs'') ++
              '\x7d' :: rest)))).map (fun pf => ((k, v) :: pf.1, pf.2)) =
            some ((k, v) :: (k2, v2) :: fs'', rest)
          have h4 : skipWs (' ' :: (dumpsObj ((k2, v2) :: fs'') ++ '\x7d' :: rest)) =
              dumpsObj ((k2, v2) :: fs'') ++ '\x7d' :: rest := by
            rw [skipWs_space, hZ2, List.cons_append]
            exact skipWs_cons_neg (by decide) _
          rw [h4, ihM ((k2, v2) :: fs'') rest (by simp) hlen2]
          rfl
    · intro es rest hne hlen
      cases es with
      | nil => exact absurd rfl hne
      | cons e es' =>
        cases es' with
        | nil =>
          have hlenv : 2 * (dumpsL e ++ ']' :: rest).length < n := by
            have h1 : dumpsArr [e] = dumpsL e := rfl
            rw [h1] at hlen
            omega
          show parseElems (n + 1) (dumpsL e ++ ']' :: rest) = some ([e], rest)
          rw [parseElems_eq, ihV e (']' :: rest)
            (by exact ⟨by decide, by decide, by decide, by decide⟩) hlenv]
          rfl
        | cons e2 es'' =>
          obtain ⟨c2, t2, heq2, hws2, -, -, -⟩ := dumpsL_shape e2
          have hA2 : ∃ A2, dumpsArr (e2 :: es'') = dumpsL e2 ++ A2 := by
            cases es'' with
            | nil => exact ⟨[], by simp [dumpsArr]⟩
            | cons e3 es''' => exact ⟨_, rfl⟩
          obtain ⟨A2, hA2⟩ := hA2
          have h1 : dumpsArr (e :: e2 :: es'') ++ ']' :: rest =
              dumpsL e ++ ',' :: ' ' :: (dumpsArr (e2 :: es'') ++ ']' :: rest) := by
            show (dumpsL e ++ ',' :: ' ' :: dumpsArr (e2 :: es'')) ++ ']' :: rest = _
            simp [List.cons_append, List.append_assoc]
          have hlenv : 2 * (dumpsL e ++ ',' :: ' ' ::
              (dumpsArr (e2 :: es'') ++ ']' :: rest)).length < n := by
            rw [h1] at hlen
            simp only [List.length_cons, List.length_append] at hlen ⊢
            omega
          have hlen2 : 2 * (dumpsArr (e2 :: es'') ++ ']' :: rest).length + 1 < n := by
            rw [h1] at hlen
            simp only [List.length_cons, List.length_append] at hlen ⊢
            omega
          rw [h1, parseElems_eq, ihV e (',' :: ' ' :: (dumpsArr (e2 :: es'') ++ ']' :: rest))
            (by exact ⟨by decide, by decide, by decide, by decide⟩) hlenv]
          show (parseElems n (skipWs (' ' :: (dumpsArr (e2 :: es'') ++ ']' :: rest)))).map
              (fun pe => (e :: pe.1, pe.2)) = some (e :: e2 :: es'', rest)
          have h2 : skipWs (' ' :: (dumpsArr (e2 :: es'') ++ ']' :: rest)) =
              dumpsArr (e2 :: es'') ++ ']' :: rest := by
            rw [skipWs_space, hA2, heq2, List.cons_append, List.cons_append]
            exact skipWs_cons_neg hws2 _
          rw [h2, ihE (e2 :: es'') rest (by simp) hlen2]
          rfl

theorem loadsL_dumpsL (O : J) : loadsL (dumpsL O) = some O := by
  have h := (parse_dumps (2 * (dumpsL O).length + 1)).1 O [] trivial
    (by rw [List.append_nil]; omega)
  rw [List.append_nil] at h
  unfold loadsL
  rw [h]
  rfl

theorem pyStrip_dumpsL (O : J) : pyStrip (dumpsL O) = dumpsL O := by
  obtain ⟨c, t, heq, -, hps, -, -⟩ := dumpsL_shape O
  obtain ⟨e, hlast, hpse, -⟩ := dumpsL_last O
  obtain ⟨r, hrev⟩ := revHead_of_getLast hlast
  unfold pyStrip dropTrailingWs
  rw [heq, List.dropWhile_cons_of_neg (by simp [hps]), ← heq, hrev,
    List.dropWhile_cons_of_neg (by simp [hpse]), ← hrev, List.reverse_reverse]

theorem stripFenceStart_dumpsL (O : J) : stripFenceStart (dumpsL O) = dumpsL O := by
  obtain ⟨c, t, heq, -, -, hbt, -⟩ := dumpsL_shape O
  have hne : ¬ (dumpsL O).take 3 = fenceChars := by
    rw [heq, show (c :: t).take 3 = c :: t.take 2 from rfl]
    intro h
    injection h with h1 h2
    exact hbt h1
  unfold stripFenceStart
  rw [if_neg hne]

theorem stripFenceEnd_dumpsL (O : J) : stripFenceEnd (dumpsL O) = dumpsL O := by
  obtain ⟨e, hlast, -, hbt⟩ := dumpsL_last O
  obtain ⟨r, hrev⟩ := revHead_of_getLast hlast
  have hne : ¬ (dumpsL O).reverse.take 3 = fenceChars := by
    rw [hrev, show (e :: r).take 3 = e :: r.take 2 from rfl]
    intro h
    injection h with h1 h2
    exact hbt h1
  unfold stripFenceEnd
  rw [if_neg hne]

theorem repair_dumpsL (O : J) : _repair_and_parse (dumpsL O) = some O := by
  unfold _repair_and_parse
  simp only [pyStrip_dumpsL, stripFenceStart_dumpsL, stripFenceEnd_dumpsL, loadsL_dumpsL]

theorem firstIdxOf_here (pat s : List Char) (h : pat.isPrefixOf s = true) :
    firstIdxOf pat s = some 0 := by
  cases s with
  | nil =>
    unfold firstIdxOf
    rw [if_pos h]
  | cons a r =>
    unfold firstIdxOf
    rw [if_pos h]

theorem firstIdxOf_append_of_no_substr (pat : List Char)
    (hb : ∀ L, L < pat.length → 0 < L →
      pat.take (pat.length - L) ≠ pat.drop L) :
    ∀ body : List Char, hasSubstrB pat body = false →
      firstIdxOf pat (body ++ pat) = some body.length := by
  intro body
  induction body with
  | nil =>
    intro h
    rw [List.nil_append]
    exact firstIdxOf_here pat pat
      (by rw [List.isPrefixOf_iff_prefix])
  | cons c b' ih =>
    intro h
    have h' : pat.isPrefixOf (c :: b') = false ∧ hasSubstrB pat b' = false := by
      have h0 : (pat.isPrefixOf (c :: b') || hasSubstrB pat b') = false := h
      exact ⟨(Bool.or_eq_false_iff.mp h0).1, (Bool.or_eq_false_iff.mp h0).2⟩
    have hnp : pat.isPrefixOf ((c :: b') ++ pat) = false := by
      by_contra hc
      have hc' : pat.isPrefixOf ((c :: b') ++ pat) = true := by
        cases hb2 : pat.isPrefixOf ((c :: b') ++ pat)
        · exact absurd hb2 hc
        · rfl
      have htake : pat = ((c :: b') ++ pat).take pat.length :=
        List.prefix_iff_eq_take.mp (List.isPrefixOf_iff_prefix.mp hc')
      rcases Nat.lt_or_ge (c :: b').length pat.length with hlt | hge
      · have hd : pat.drop (c :: b').length = pat.take (pat.length - (c :: b').length) := by
          conv_lhs => rw [htake]
          rw [List.drop_take, List.drop_left]
        exact hb (c :: b').length hlt (by simp) hd.symm
      · have hfit : pat = (c :: b').take pat.length := by
          conv_lhs => rw [htake]
          rw [List.take_append_eq_append_take, Nat.sub_eq_zero_of_le hge]
          simp
        have hpre : pat.isPrefixOf (c :: b') = true := by
          rw [List.isPrefixOf_iff_prefix, hfit]
          exact List.take_prefix _ _
        rw [h'.1] at hpre
        exact Bool.false_ne_true hpre
    show firstIdxOf pat ((c :: b') ++ pat) = some (b'.length + 1)
    rw [List.cons_append]
    unfold firstIdxOf
    rw [if_neg (by rw [← List.cons_append, hnp]; exact Bool.false_ne_true), ih h'.2]
    rfl

theorem closeTag_borderless :
    ∀ L, L < closeTag.length → 0 < L →
      closeTag.take (closeTag.length - L) ≠ closeTag.drop L := by decide

theorem findTagInner_wrap (body : List Char) (h : hasSubstrB closeTag body = false) :
    findTagInner (wrapReport body) = some body := by
  unfold findTagInner
  rw [show wrapReport body = openTag ++ (body ++ closeTag) from by
    unfold wrapReport; rw [List.append_assoc]]
  rw [firstIdxOf_here _ _
    (by rw [List.isPrefixOf_iff_prefix]; exact List.prefix_append _ _)]
  show (match firstIdxOf closeTag
        ((openTag ++ (body ++ closeTag)).drop (0 + openTag.length)) with
      | none => none
      | some j =>
        some (((openTag ++ (body ++ closeTag)).drop (0 + openTag.length)).take j)) =
      some body
  rw [Nat.zero_add, List.drop_left,
    firstIdxOf_append_of_no_substr closeTag closeTag_borderless body h]
  show some ((body ++ closeTag).take body.length) = some body
  rw [List.take_left]


theorem parse_report_json_of (raw inner : List Char) (r : J)
    (h1 : findTagInner raw = some inner) (h2 : _repair_and_parse inner = some r) :
    parse_report_json raw = some r := by
  unfold parse_report_json
  simp only [h1, h2]

set_option maxHeartbeats 2000000 in
/-- C5 counterexample: serializing `delimiterReport` (whose `subject_name`
    string contains the closing delimiter text) inside the delimiter pair
    and feeding it to the Extractor yields `none`, not the object back:
    the lazy `.*?` stops at the copy of `</CDD_REPORT_JSON>` inside the
    string literal, truncating the payload, and the `"subject_name"`
    fallback also fails because a nested object precedes the anchor. -/
theorem c5_counterexample :
    parse_report_json (wrapReport (dumpsL delimiterReport)) = none ∧
      dumpsL delimiterReport ≠ [] := ⟨rfl, by decide⟩

/-- C5 (amended): the round-trip holds for every report object whose
    serialization does not contain the closing delimiter
    `</CDD_REPORT_JSON>` as a substring: serializing such an `O`, wrapping
    it in the delimiter pair, and feeding the text to `parse_report_json`
    returns exactly `O`. -/
theorem c5_roundtrip (O : J)
    (h : hasSubstrB closeTag (dumpsL O) = false) :
    parse_report_json (wrapReport (dumpsL O)) = some O :=
  parse_report_json_of (wrapReport (dumpsL O)) (dumpsL O) O
    (findTagInner_wrap (dumpsL O) h) (repair_dumpsL O)

/-- C5 witness: the round-trip at the concrete report `goodReport`. -/
theorem c5_roundtrip_witness :
    hasSubstrB closeTag (dumpsL goodReport) = false ∧
      parse_report_json (wrapReport (dumpsL goodReport)) = some goodReport :=
  ⟨by decide, c5_roundtrip goodReport (by decide)⟩
